import Mathlib

/-!
Shallow embedding of the csvn CSV tokenizer (src/csvn.h) and proofs about it.

Modelling conventions:
* a C text buffer is a `List Nat` of byte values; the caller passes `textlen`
  separately (callers use `strlen`, so `textlen = text.length` and the byte at
  index `textlen` is the NUL terminator).  `byteAt` returns 0 past the end of
  the list, matching the NUL-terminated reads the code performs.
* the compile-time `#define` flags (CSVN_STRICT, CSVN_CONSIDER_NL,
  CSVN_NO_EMPTY_FIELD, CSVN_IGNORE_EMPTY_FIELD, CSVN_SKIP_WHITESPACE and the
  CSVN_NEWLINE / CSVN_DELIM bytes) become an explicit `Config` record.
* the caller-owned token array is a total map `Nat → csv_t` together with a
  log of every index stored to, so out-of-bounds stores are observable.
* `csv_p.pos`, `csv_p.toknext`, `csv_p.line` are C `int`s that remain
  non-negative in every execution of the entry points, so they are `Nat`s;
  the fields of a `csv_t` are kept as `Int` because `size = end - start`
  (and `end = pos - 1`) can be negative for an empty quoted field.
* every `while`/`for` loop of the source becomes a fuel-indexed recursion
  returning `Option` (`none` = fuel exhausted); the call sites supply fuel
  that the termination theorem proves sufficient, so a `none` result never
  actually arises.
-/

/-- Field classification, embedding `enum csv_tok` (src/csvn.h lines 71-81). -/
inductive csv_tok where
  | UNASSIGN
  | DQUOTE
  | TEXT
  | EMPTY
deriving DecidableEq, Repr

/-- Field descriptor, embedding `struct csv_t` (src/csvn.h lines 115-127);
`end` is a Lean keyword, so the field is called `end_`. -/
structure csv_t where
  start : Int
  end_ : Int
  line : Int
  size : Int
  token : csv_tok
deriving DecidableEq, Repr

/-- Parser cursor, embedding `struct csv_p` (src/csvn.h lines 92-100). -/
structure csv_p where
  pos : Nat
  toknext : Nat
  line : Nat
deriving DecidableEq, Repr

/-- Error code NOT_ENOUGH_MEM (src/csvn.h line 55). -/
def NOT_ENOUGH_MEM : Int := -1

/-- Error code INVALID_CHARACTER (src/csvn.h line 56). -/
def INVALID_CHARACTER : Int := -2

/-- The compile-time configuration: the CSVN_* preprocessor flags and the
newline/delimiter bytes (src/csvn.h lines 30-39 and the #ifdef sites). -/
structure Config where
  strict : Bool
  considerNl : Bool
  noEmptyField : Bool
  ignoreEmptyField : Bool
  skipWhitespace : Bool
  nl : Nat := 10
  delim : Nat := 44
deriving DecidableEq, Repr

/-- Default build: no flags set, newline 10, delimiter 44. -/
def cfgDefault : Config :=
  { strict := false, considerNl := false, noEmptyField := false,
    ignoreEmptyField := false, skipWhitespace := false }

/-- Build with only CSVN_STRICT defined. -/
def cfgStrict : Config := { cfgDefault with strict := true }

/-- Build with only CSVN_NO_EMPTY_FIELD defined. -/
def cfgNoEmpty : Config := { cfgDefault with noEmptyField := true }

/-- Build with only CSVN_IGNORE_EMPTY_FIELD defined. -/
def cfgIgnoreEmpty : Config := { cfgDefault with ignoreEmptyField := true }

/-- The byte `text[i]`: the C buffers are NUL-terminated strings, so any read
at or past `text.length` yields 0. -/
def byteAt (text : List Nat) (i : Nat) : Nat := text.getD i 0

/-- The caller-owned token array: a total map from slot index to descriptor,
plus the log of every slot index a store went to (so stores past the declared
capacity are observable). -/
structure Mem where
  pool : Nat → csv_t
  written : List Nat

/-- A fresh token array: all slots zeroed, nothing written yet. -/
def memInit : Mem := ⟨fun _ => ⟨0, 0, 0, 0, .UNASSIGN⟩, []⟩

/-- Store descriptor `t` into slot `i` of the caller's array. -/
def memWrite (m : Mem) (i : Nat) (t : csv_t) : Mem :=
  ⟨fun j => if j = i then t else m.pool j, m.written ++ [i]⟩

/-- Embedding of `csvn_init` (src/csvn.h lines 197-204). -/
def csvn_init : csv_p := ⟨0, 0, 1⟩

/-- Embedding of `csvn_allocate_token` (src/csvn.h lines 206-226).
`hasPool` models `tokens != NULL`.  The bounds check is the source's
`csv_p->toknext > num_tok`, so the slot at index `num_tok` itself is still
handed out.  On success: returns the slot index, the cursor with `toknext`
advanced, and the array with the new slot zeroed (`kind = UNASSIGN`). -/
def csvn_allocate_token (p : csv_p) (hasPool : Bool) (m : Mem) (num_tok : Nat) :
    Option (Nat × csv_p × Mem) :=
  if hasPool = false then
    none
  else if p.toknext > num_tok then
    none
  else
    some (p.toknext, { p with toknext := p.toknext + 1 },
      memWrite m p.toknext ⟨0, 0, 0, 0, .UNASSIGN⟩)

/-- Embedding of `csvn_fill_token` (src/csvn.h lines 228-242):
`size` is `end - start`. -/
def csvn_fill_token (s e l : Int) (tk : csv_tok) : csv_t :=
  ⟨s, e, l, e - s, tk⟩

/-- The scanning `while` loop of `csvn_parse_quotes` (src/csvn.h lines
258-282), fuel-indexed.  `fline` is the local `line` variable of the C
function: the line the field is attributed to.  Note: when CSVN_CONSIDER_NL
is defined the source has `line++` without a semicolon (line 275), which does
not compile; the intended increment of the local `line` is modelled. -/
def quotesLoop (cfg : Config) (text : List Nat) (textlen : Nat) (fuel : Nat)
    (p : csv_p) (fline : Nat) : Option (csv_p × Nat) :=
  match fuel with
  | 0 => none
  | fuel + 1 =>
    if byteAt text p.pos ≠ 0 ∧ p.pos < textlen then
      if byteAt text p.pos = 34 ∧ byteAt text (p.pos + 1) = 34 then
        quotesLoop cfg text textlen fuel { p with pos := p.pos + 2 } fline
      else if byteAt text p.pos = 34 ∧ byteAt text (p.pos + 1) ≠ 34 then
        some (p, fline)
      else if byteAt text p.pos = cfg.nl then
        quotesLoop cfg text textlen fuel
          { p with pos := p.pos + 1, line := p.line + 1 }
          (if cfg.considerNl then fline + 1 else fline)
      else
        quotesLoop cfg text textlen fuel { p with pos := p.pos + 1 } fline
    else some (p, fline)

/-- Embedding of `csvn_parse_quotes` (src/csvn.h lines 244-298).  `end` is
`pos - 1` over C `int`, hence computed in `Int`.  The scan loop gets fuel
`textlen + 1`, which is always sufficient. -/
def csvn_parse_quotes (cfg : Config) (text : List Nat) (textlen : Nat)
    (p : csv_p) (hasPool : Bool) (m : Mem) (num_tok : Nat) :
    Option (Int × csv_p × Mem) :=
  let start : Int := p.pos
  match quotesLoop cfg text textlen (textlen + 1) p p.line with
  | none => none
  | some r =>
    let e : Int := (r.1.pos : Int) - 1
    if hasPool then
      match csvn_allocate_token r.1 true m num_tok with
      | none => some (NOT_ENOUGH_MEM, r.1, m)
      | some (idx, p2, m1) =>
          some (0, p2, memWrite m1 idx (csvn_fill_token start e (r.2 : Int) .DQUOTE))
    else some (0, r.1, m)

/-- The scanning `for` loop of `csvn_parse_normal` (src/csvn.h lines
315-327), fuel-indexed.  Returns the C function's early
`return INVALID_CHARACTER` (under CSVN_STRICT, on a quote byte) as a
non-zero first component, with the cursor left at the offending byte. -/
def normalLoop (cfg : Config) (text : List Nat) (textlen : Nat) (fuel : Nat)
    (p : csv_p) : Option (Int × csv_p) :=
  match fuel with
  | 0 => none
  | fuel + 1 =>
    if byteAt text p.pos ≠ 0 ∧ p.pos < textlen ∧
        byteAt text p.pos ≠ cfg.nl ∧ byteAt text p.pos ≠ cfg.delim then
      if cfg.strict ∧ byteAt text p.pos = 34 then
        some (INVALID_CHARACTER, p)
      else
        normalLoop cfg text textlen fuel { p with pos := p.pos + 1 }
    else some (0, p)

/-- Embedding of `csvn_parse_normal` (src/csvn.h lines 301-348).  After the
loop, if the stopping byte is the newline or the delimiter the cursor steps
back one byte (`csv_p->pos--`; from `csvn_parse` this point is only reached
with `pos ≥ 1`, so `Nat` subtraction agrees with the C `int`).  The filled
descriptor's kind is `DQUOTE`, exactly as in the source (line 343). -/
def csvn_parse_normal (cfg : Config) (text : List Nat) (textlen : Nat)
    (p : csv_p) (hasPool : Bool) (m : Mem) (num_tok : Nat) :
    Option (Int × csv_p × Mem) :=
  let start : Int := p.pos
  let fline : Int := p.line
  match normalLoop cfg text textlen (textlen + 1) p with
  | none => none
  | some r =>
    if r.1 ≠ 0 then some (r.1, r.2, m)
    else
      let p2 := if byteAt text r.2.pos = cfg.nl ∨ byteAt text r.2.pos = cfg.delim then
          { r.2 with pos := r.2.pos - 1 }
        else r.2
      let e : Int := p2.pos
      if hasPool then
        match csvn_allocate_token p2 true m num_tok with
        | none => some (NOT_ENOUGH_MEM, p2, m)
        | some (idx, p3, m1) =>
            some (0, p3, memWrite m1 idx (csvn_fill_token start e fline .DQUOTE))
      else some (0, p2, m)

/-- The whitespace-skipping loop of the CSVN_SKIP_WHITESPACE branch
(src/csvn.h lines 373-381), fuel-indexed: advance while the current byte is
a space (32).  The C loop has no `textlen` guard; it stops because a NUL
(modelled as the 0 read past the list) ends the run. -/
def wsLoop (text : List Nat) (fuel : Nat) (p : csv_p) : Option csv_p :=
  match fuel with
  | 0 => none
  | fuel + 1 =>
    if byteAt text p.pos = 32 then
      wsLoop text fuel { p with pos := p.pos + 1 }
    else some p

/-- Outcome of one iteration of the dispatch loop's body (the `switch` in
`csvn_parse`): `done` is an early `return` with an error code, `cont` falls
through to the next `while` iteration with the updated cursor, token array
and field count, and `stuck` means an inner loop ran out of fuel (proved
impossible). -/
inductive StepRes where
  | done (code : Int) (p : csv_p) (m : Mem)
  | cont (p : csv_p) (m : Mem) (parsed : Nat)
  | stuck

/-- The body of the dispatch `while` loop of `csvn_parse` (the `switch` on
the byte under the cursor, src/csvn.h lines 363-434), for one iteration in
which the loop guard holds.  The inner loops get fuel `text.length + 1`
resp. `textlen + 1`, which is always sufficient. -/
def parseStep (cfg : Config) (text : List Nat) (textlen : Nat)
    (p : csv_p) (hasPool : Bool) (m : Mem) (num_tok : Nat) (parsed : Nat) :
    StepRes :=
  if byteAt text p.pos = cfg.nl then
    .cont { p with line := p.line + 1, pos := p.pos + 1 } m parsed
  else if byteAt text p.pos = cfg.delim then
    let p1 := { p with pos := p.pos + 1 }
    match (if cfg.skipWhitespace then wsLoop text (text.length + 1) p1
           else some p1) with
    | none => .stuck
    | some p2 =>
      if byteAt text p2.pos = cfg.delim then
        if cfg.noEmptyField then
          .done INVALID_CHARACTER p2 m
        else if cfg.ignoreEmptyField then
          .cont p2 m parsed
        else if hasPool then
          (match csvn_allocate_token p2 true m num_tok with
           | none => .done NOT_ENOUGH_MEM p2 m
           | some (idx, p3, m1) =>
               .cont p3
                 (memWrite m1 idx
                   (csvn_fill_token ((p2.pos : Int) - 1) (p2.pos : Int)
                     (p2.line : Int) .EMPTY))
                 (parsed + 1))
        else
          .cont p2 m (parsed + 1)
      else
        .cont p2 m parsed
  else if byteAt text p.pos = 34 then
    match csvn_parse_quotes cfg text textlen { p with pos := p.pos + 1 }
      hasPool m num_tok with
    | none => .stuck
    | some r =>
      if r.1 ≠ 0 then .done r.1 r.2.1 r.2.2
      else
        let p2 := { r.2.1 with pos := r.2.1.pos + 1 }
        if cfg.strict then
          if byteAt text p2.pos = cfg.delim ∨ byteAt text p2.pos = cfg.nl then
            .cont p2 r.2.2 (parsed + 1)
          else if byteAt text p2.pos ≠ 0 ∧ p2.pos < textlen then
            .done INVALID_CHARACTER p2 r.2.2
          else
            .cont p2 r.2.2 (parsed + 1)
        else
          .cont p2 r.2.2 (parsed + 1)
  else
    match csvn_parse_normal cfg text textlen p hasPool m num_tok with
    | none => .stuck
    | some r =>
      if r.1 ≠ 0 then .done r.1 r.2.1 r.2.2
      else .cont { r.2.1 with pos := r.2.1.pos + 1 } r.2.2 (parsed + 1)

/-- The dispatch `while` loop of `csvn_parse` (src/csvn.h lines 361-436),
fuel-indexed; `parsed` is the accumulated field count.  Each iteration whose
guard holds runs `parseStep`; when the guard fails the accumulated count is
returned. -/
def parseLoop (cfg : Config) (text : List Nat) (textlen : Nat) (fuel : Nat)
    (p : csv_p) (hasPool : Bool) (m : Mem) (num_tok : Nat) (parsed : Nat) :
    Option (Int × csv_p × Mem) :=
  match fuel with
  | 0 => none
  | fuel + 1 =>
    if byteAt text p.pos ≠ 0 ∧ p.pos < textlen then
      match parseStep cfg text textlen p hasPool m num_tok parsed with
      | .done code q mq => some (code, q, mq)
      | .cont q mq parsed2 =>
          parseLoop cfg text textlen fuel q hasPool mq num_tok parsed2
      | .stuck => none
    else some ((parsed : Int), p, m)

/-- Embedding of `csvn_parse` (src/csvn.h lines 350-440): runs the dispatch
loop with fuel `(textlen - pos) + 1`, which the termination theorem proves
sufficient. -/
def csvn_parse (cfg : Config) (text : List Nat) (textlen : Nat) (p : csv_p)
    (hasPool : Bool) (m : Mem) (num_tok : Nat) : Option (Int × csv_p × Mem) :=
  parseLoop cfg text textlen ((textlen - p.pos) + 1) p hasPool m num_tok 0

/-- The return value of a parse run. -/
def parseRet (x : Option (Int × csv_p × Mem)) : Option Int :=
  x.map fun r => r.1

/-- Descriptor slot `i` of the token array after a parse run. -/
def parseTok (x : Option (Int × csv_p × Mem)) (i : Nat) : Option csv_t :=
  x.map fun r => r.2.2.pool i

/-- The log of slot indices written during a parse run. -/
def parseWritten (x : Option (Int × csv_p × Mem)) : Option (List Nat) :=
  x.map fun r => r.2.2.written

/-- The bytes `buffer[start..=end]` of a descriptor's span. -/
def fieldBytes (text : List Nat) (t : csv_t) : List Nat :=
  (text.drop t.start.toNat).take (t.end_.toNat + 1 - t.start.toNat)

/-- A nonzero byte read lies inside the list (past the end `byteAt` is 0). -/
theorem byteAt_lt_length {text : List Nat} {i : Nat} (h : byteAt text i ≠ 0) :
    i < text.length := by
  by_contra hc
  apply h
  unfold byteAt
  exact List.getD_eq_default _ _ (by omega)

/-- Fuel `text.length - pos + 1` always suffices for the whitespace loop, and
the loop only moves `pos` forward. -/
theorem wsLoop_spec (text : List Nat) :
    ∀ fuel p, text.length - p.pos < fuel →
      ∃ q, wsLoop text fuel p = some q ∧ p.pos ≤ q.pos ∧
        q.toknext = p.toknext ∧ q.line = p.line := by
  intro fuel
  induction fuel with
  | zero => intro p h; omega
  | succ f ih =>
    intro p hf
    rw [wsLoop]
    by_cases hb : byteAt text p.pos = 32
    · rw [if_pos hb]
      have hlt : p.pos < text.length := byteAt_lt_length (by omega)
      obtain ⟨q, hq, h1, h2, h3⟩ := ih { p with pos := p.pos + 1 } (by simp; omega)
      exact ⟨q, hq, by simp at h1; omega, h2, h3⟩
    · rw [if_neg hb]
      exact ⟨p, rfl, le_refl _, rfl, rfl⟩

/-- Fuel `textlen - pos + 1` always suffices for the quoted-field scan loop;
the loop moves `pos` forward and never touches `toknext`. -/
theorem quotesLoop_spec (cfg : Config) (text : List Nat) (textlen : Nat) :
    ∀ fuel p fline, textlen - p.pos < fuel →
      ∃ r, quotesLoop cfg text textlen fuel p fline = some r ∧
        p.pos ≤ r.1.pos ∧ r.1.toknext = p.toknext := by
  intro fuel
  induction fuel with
  | zero => intro p fline h; omega
  | succ f ih =>
    intro p fline hf
    rw [quotesLoop]
    by_cases hg : byteAt text p.pos ≠ 0 ∧ p.pos < textlen
    · rw [if_pos hg]
      by_cases h1 : byteAt text p.pos = 34 ∧ byteAt text (p.pos + 1) = 34
      · rw [if_pos h1]
        obtain ⟨r, hr, ha, hb⟩ := ih { p with pos := p.pos + 2 } fline (by simp; omega)
        exact ⟨r, hr, by simp at ha; omega, hb⟩
      · rw [if_neg h1]
        by_cases h2 : byteAt text p.pos = 34 ∧ byteAt text (p.pos + 1) ≠ 34
        · rw [if_pos h2]
          exact ⟨(p, fline), rfl, le_refl _, rfl⟩
        · rw [if_neg h2]
          by_cases h3 : byteAt text p.pos = cfg.nl
          · rw [if_pos h3]
            obtain ⟨r, hr, ha, hb⟩ :=
              ih { p with pos := p.pos + 1, line := p.line + 1 }
                (if cfg.considerNl then fline + 1 else fline) (by simp; omega)
            exact ⟨r, hr, by simp at ha; omega, hb⟩
          · rw [if_neg h3]
            obtain ⟨r, hr, ha, hb⟩ := ih { p with pos := p.pos + 1 } fline (by simp; omega)
            exact ⟨r, hr, by simp at ha; omega, hb⟩
    · rw [if_neg hg]
      exact ⟨(p, fline), rfl, le_refl _, rfl⟩

/-- Fuel `textlen - pos + 1` always suffices for the unquoted-field scan
loop; the loop moves `pos` forward, never touches `toknext` or `line`, and
returns either 0 or (under CSVN_STRICT) INVALID_CHARACTER. -/
theorem normalLoop_spec (cfg : Config) (text : List Nat) (textlen : Nat) :
    ∀ fuel p, textlen - p.pos < fuel →
      ∃ r, normalLoop cfg text textlen fuel p = some r ∧
        p.pos ≤ r.2.pos ∧ r.2.toknext = p.toknext ∧ r.2.line = p.line ∧
        (r.1 = 0 ∨ (cfg.strict = true ∧ r.1 = INVALID_CHARACTER)) := by
  intro fuel
  induction fuel with
  | zero => intro p h; omega
  | succ f ih =>
    intro p hf
    rw [normalLoop]
    by_cases hg : byteAt text p.pos ≠ 0 ∧ p.pos < textlen ∧
        byteAt text p.pos ≠ cfg.nl ∧ byteAt text p.pos ≠ cfg.delim
    · rw [if_pos hg]
      by_cases hq : cfg.strict ∧ byteAt text p.pos = 34
      · rw [if_pos hq]
        exact ⟨(INVALID_CHARACTER, p), rfl, le_refl _, rfl, rfl, Or.inr ⟨hq.1, rfl⟩⟩
      · rw [if_neg hq]
        obtain ⟨r, hr, ha, hb, hc, hd⟩ := ih { p with pos := p.pos + 1 } (by simp; omega)
        exact ⟨r, hr, by simp at ha; omega, hb, hc, hd⟩
    · rw [if_neg hg]
      exact ⟨(0, p), rfl, le_refl _, rfl, rfl, Or.inl rfl⟩

/-- What a successful allocation means: the slot is the old `toknext` (which
the buggy `>` check allows up to and including `num_tok`), the cursor
advances `toknext`, and the slot is zeroed. -/
theorem csvn_allocate_token_some {p : csv_p} {hasPool : Bool} {m : Mem}
    {num_tok idx : Nat} {p2 : csv_p} {m2 : Mem}
    (h : csvn_allocate_token p hasPool m num_tok = some (idx, p2, m2)) :
    idx = p.toknext ∧ p2 = { p with toknext := p.toknext + 1 } ∧
      m2 = memWrite m p.toknext ⟨0, 0, 0, 0, .UNASSIGN⟩ ∧
      p.toknext ≤ num_tok ∧ hasPool = true := by
  unfold csvn_allocate_token at h
  split at h
  · exact absurd h (by simp)
  · split at h
    · exact absurd h (by simp)
    · rename_i h1 h2
      simp only [Option.some.injEq, Prod.mk.injEq] at h
      refine ⟨h.1.symm, h.2.1.symm, h.2.2.symm, by omega, ?_⟩
      revert h1
      cases hasPool <;> simp

/-- When `toknext ≤ num_tok` (in particular at `toknext = num_tok`: the
off-by-one), allocation from a present pool succeeds. -/
theorem csvn_allocate_token_le {p : csv_p} {m : Mem} {num_tok : Nat}
    (h : p.toknext ≤ num_tok) :
    csvn_allocate_token p true m num_tok =
      some (p.toknext, { p with toknext := p.toknext + 1 },
        memWrite m p.toknext ⟨0, 0, 0, 0, .UNASSIGN⟩) := by
  unfold csvn_allocate_token
  rw [if_neg (by simp), if_neg (by omega)]

/-- The quoted-field scanner always returns a result (its loop fuel is
sufficient) and only moves `pos` forward. -/
theorem csvn_parse_quotes_spec (cfg : Config) (text : List Nat) (textlen : Nat)
    (p : csv_p) (hasPool : Bool) (m : Mem) (num_tok : Nat) :
    ∃ r, csvn_parse_quotes cfg text textlen p hasPool m num_tok = some r ∧
      p.pos ≤ r.2.1.pos ∧ (r.1 = 0 ∨ r.1 = NOT_ENOUGH_MEM) := by
  obtain ⟨q, hq, hpos, htk⟩ :=
    quotesLoop_spec cfg text textlen (textlen + 1) p p.line (by omega)
  simp only [csvn_parse_quotes, hq]
  by_cases hp : hasPool = true
  · rw [if_pos hp]
    cases halloc : csvn_allocate_token q.1 true m num_tok with
    | none => exact ⟨_, rfl, hpos, Or.inr rfl⟩
    | some r2 =>
      obtain ⟨idx, p2, m1⟩ := r2
      obtain ⟨-, hp2, -, -, -⟩ := csvn_allocate_token_some halloc
      exact ⟨_, rfl, by rw [hp2]; simpa using hpos, Or.inl rfl⟩
  · rw [if_neg hp]
    exact ⟨_, rfl, hpos, Or.inl rfl⟩

/-- The unquoted-field scanner always returns a result; when the byte under
the cursor at entry is neither the newline nor the delimiter (as is the case
whenever `csvn_parse` invokes it), `pos` only moves forward. -/
theorem csvn_parse_normal_spec (cfg : Config) (text : List Nat) (textlen : Nat)
    (p : csv_p) (hasPool : Bool) (m : Mem) (num_tok : Nat) :
    ∃ r, csvn_parse_normal cfg text textlen p hasPool m num_tok = some r ∧
      ((byteAt text p.pos ≠ cfg.nl ∧ byteAt text p.pos ≠ cfg.delim) →
        p.pos ≤ r.2.1.pos) ∧
      (r.1 = 0 ∨ r.1 = INVALID_CHARACTER ∨ r.1 = NOT_ENOUGH_MEM) := by
  obtain ⟨r0, hr0, hpos, htk, hline, hcode⟩ :=
    normalLoop_spec cfg text textlen (textlen + 1) p (by omega)
  simp only [csvn_parse_normal, hr0]
  by_cases hc0 : r0.1 ≠ 0
  · rw [if_pos hc0]
    refine ⟨_, rfl, fun _ => hpos, ?_⟩
    rcases hcode with h | ⟨-, h⟩
    · exact absurd h hc0
    · exact Or.inr (Or.inl h)
  · rw [if_neg hc0]
    by_cases hdec : byteAt text r0.2.pos = cfg.nl ∨ byteAt text r0.2.pos = cfg.delim
    · rw [if_pos hdec]
      have hstep : ∀ hb : byteAt text p.pos ≠ cfg.nl ∧ byteAt text p.pos ≠ cfg.delim,
          p.pos ≤ r0.2.pos - 1 := by
        intro hb
        rcases Nat.eq_or_lt_of_le hpos with heq | hlt
        · rw [← heq] at hdec
          rcases hdec with h | h
          · exact absurd h hb.1
          · exact absurd h hb.2
        · omega
      by_cases hp : hasPool = true
      · rw [if_pos hp]
        cases halloc : csvn_allocate_token { r0.2 with pos := r0.2.pos - 1 } true m num_tok with
        | none => exact ⟨_, rfl, hstep, Or.inr (Or.inr rfl)⟩
        | some r2 =>
          obtain ⟨idx, p3, m1⟩ := r2
          obtain ⟨-, hp3, -, -, -⟩ := csvn_allocate_token_some halloc
          exact ⟨_, rfl, fun hb => by rw [hp3]; simpa using hstep hb, Or.inl rfl⟩
      · rw [if_neg hp]
        exact ⟨_, rfl, hstep, Or.inl rfl⟩
    · rw [if_neg hdec]
      by_cases hp : hasPool = true
      · rw [if_pos hp]
        cases halloc : csvn_allocate_token r0.2 true m num_tok with
        | none => exact ⟨_, rfl, fun _ => hpos, Or.inr (Or.inr rfl)⟩
        | some r2 =>
          obtain ⟨idx, p3, m1⟩ := r2
          obtain ⟨-, hp3, -, -, -⟩ := csvn_allocate_token_some halloc
          exact ⟨_, rfl, fun _ => by rw [hp3]; simpa using hpos, Or.inl rfl⟩
      · rw [if_neg hp]
        exact ⟨_, rfl, fun _ => hpos, Or.inl rfl⟩

/-- One iteration of the dispatch body never gets stuck, an early `return`
carries a negative error code and a cursor at or beyond the entry position,
and a fall-through to the next iteration advances `pos` by at least one byte
and never decreases the field count. -/
theorem parseStep_spec (cfg : Config) (text : List Nat) (textlen : Nat)
    (p : csv_p) (hasPool : Bool) (m : Mem) (num_tok : Nat) (parsed : Nat) :
    (match parseStep cfg text textlen p hasPool m num_tok parsed with
     | .done code q _ => p.pos ≤ q.pos ∧ code < 0
     | .cont q _ parsed2 => p.pos + 1 ≤ q.pos ∧ parsed ≤ parsed2
     | .stuck => False) := by
  unfold parseStep
  by_cases hnl : byteAt text p.pos = cfg.nl
  · simp only [if_pos hnl]
    exact ⟨Nat.le_refl _, Nat.le_refl _⟩
  simp only [if_neg hnl]
  by_cases hdl : byteAt text p.pos = cfg.delim
  · simp only [if_pos hdl]
    have hws : ∃ p2, (if cfg.skipWhitespace then
          wsLoop text (text.length + 1) { p with pos := p.pos + 1 }
        else some { p with pos := p.pos + 1 }) = some p2 ∧ p.pos + 1 ≤ p2.pos := by
      by_cases hsw : cfg.skipWhitespace = true
      · rw [if_pos hsw]
        obtain ⟨q, hq, h1, -, -⟩ :=
          wsLoop_spec text (text.length + 1) { p with pos := p.pos + 1 } (by simp; omega)
        exact ⟨q, hq, by simpa using h1⟩
      · rw [if_neg hsw]
        exact ⟨_, rfl, by simp⟩
    obtain ⟨p2, hp2, hp2pos⟩ := hws
    simp only [hp2]
    by_cases hdd : byteAt text p2.pos = cfg.delim
    · simp only [if_pos hdd]
      by_cases hne : cfg.noEmptyField = true
      · simp only [if_pos hne]
        exact ⟨by omega, by decide⟩
      simp only [if_neg hne]
      by_cases hie : cfg.ignoreEmptyField = true
      · simp only [if_pos hie]
        exact ⟨hp2pos, Nat.le_refl _⟩
      simp only [if_neg hie]
      by_cases hp : hasPool = true
      · simp only [if_pos hp]
        cases halloc : csvn_allocate_token p2 true m num_tok with
        | none =>
          simp only [halloc]
          exact ⟨by omega, by decide⟩
        | some r2 =>
          obtain ⟨idx, p3, m1⟩ := r2
          simp only [halloc]
          obtain ⟨-, hp3, -, -, -⟩ := csvn_allocate_token_some halloc
          exact ⟨by rw [hp3]; simpa using hp2pos, by omega⟩
      · simp only [if_neg hp]
        exact ⟨hp2pos, by omega⟩
    · simp only [if_neg hdd]
      exact ⟨hp2pos, Nat.le_refl _⟩
  simp only [if_neg hdl]
  by_cases hq34 : byteAt text p.pos = 34
  · simp only [if_pos hq34]
    obtain ⟨r, hr, hrpos, hrcode⟩ :=
      csvn_parse_quotes_spec cfg text textlen { p with pos := p.pos + 1 } hasPool m num_tok
    have hrpos' : p.pos + 1 ≤ r.2.1.pos := by simpa using hrpos
    simp only [hr]
    by_cases hc : r.1 ≠ 0
    · simp only [if_pos hc]
      refine ⟨by omega, ?_⟩
      rcases hrcode with h | h
      · exact absurd h hc
      · rw [h]; decide
    · simp only [if_neg hc]
      by_cases hst : cfg.strict = true
      · simp only [if_pos hst]
        by_cases hnx : byteAt text ({ r.2.1 with pos := r.2.1.pos + 1 } : csv_p).pos = cfg.delim ∨
            byteAt text ({ r.2.1 with pos := r.2.1.pos + 1 } : csv_p).pos = cfg.nl
        · simp only [if_pos hnx]
          exact ⟨show p.pos + 1 ≤ r.2.1.pos + 1 from by omega,
            show parsed ≤ parsed + 1 from by omega⟩
        · simp only [if_neg hnx]
          by_cases hin : byteAt text ({ r.2.1 with pos := r.2.1.pos + 1 } : csv_p).pos ≠ 0 ∧
              ({ r.2.1 with pos := r.2.1.pos + 1 } : csv_p).pos < textlen
          · simp only [if_pos hin]
            exact ⟨show p.pos ≤ r.2.1.pos + 1 from by omega, by decide⟩
          · simp only [if_neg hin]
            exact ⟨show p.pos + 1 ≤ r.2.1.pos + 1 from by omega,
              show parsed ≤ parsed + 1 from by omega⟩
      · simp only [if_neg hst]
        exact ⟨show p.pos + 1 ≤ r.2.1.pos + 1 from by omega,
          show parsed ≤ parsed + 1 from by omega⟩
  · simp only [if_neg hq34]
    obtain ⟨r, hr, hrpos, hrcode⟩ :=
      csvn_parse_normal_spec cfg text textlen p hasPool m num_tok
    have hrpos' : p.pos ≤ r.2.1.pos := hrpos ⟨hnl, hdl⟩
    simp only [hr]
    by_cases hc : r.1 ≠ 0
    · simp only [if_pos hc]
      refine ⟨hrpos', ?_⟩
      rcases hrcode with h | h | h
      · exact absurd h hc
      · rw [h]; decide
      · rw [h]; decide
    · simp only [if_neg hc]
      exact ⟨show p.pos + 1 ≤ r.2.1.pos + 1 from by omega,
        show parsed ≤ parsed + 1 from by omega⟩

/-- Fuel `textlen - pos + 1` suffices for the dispatch loop: every iteration
advances `pos` by at least one byte and the guard requires `pos < textlen`. -/
theorem parseLoop_isSome (cfg : Config) (text : List Nat) (textlen : Nat) :
    ∀ fuel p hasPool m num_tok parsed, textlen - p.pos < fuel →
      (parseLoop cfg text textlen fuel p hasPool m num_tok parsed).isSome := by
  intro fuel
  induction fuel with
  | zero => intro p _ _ _ _ h; omega
  | succ f ih =>
    intro p hasPool m num_tok parsed hf
    rw [parseLoop]
    by_cases hg : byteAt text p.pos ≠ 0 ∧ p.pos < textlen
    · rw [if_pos hg]
      have hs := parseStep_spec cfg text textlen p hasPool m num_tok parsed
      cases hstep : parseStep cfg text textlen p hasPool m num_tok parsed with
      | done code q mq => simp
      | cont q mq parsed2 =>
        rw [hstep] at hs
        exact ih q hasPool mq num_tok parsed2 (by omega)
      | stuck =>
        rw [hstep] at hs
        exact hs.elim
    · rw [if_neg hg]
      simp

/-- Across a run of the dispatch loop, the cursor position never decreases. -/
theorem parseLoop_pos_mono (cfg : Config) (text : List Nat) (textlen : Nat) :
    ∀ fuel p hasPool m num_tok parsed code q mq,
      parseLoop cfg text textlen fuel p hasPool m num_tok parsed =
        some (code, q, mq) → p.pos ≤ q.pos := by
  intro fuel
  induction fuel with
  | zero =>
    intro p _ _ _ _ code q mq h
    exact absurd h (by simp [parseLoop])
  | succ f ih =>
    intro p hasPool m num_tok parsed code q mq h
    rw [parseLoop] at h
    by_cases hg : byteAt text p.pos ≠ 0 ∧ p.pos < textlen
    · rw [if_pos hg] at h
      have hs := parseStep_spec cfg text textlen p hasPool m num_tok parsed
      cases hstep : parseStep cfg text textlen p hasPool m num_tok parsed with
      | done code2 q2 mq2 =>
        rw [hstep] at h hs
        simp only [Option.some.injEq, Prod.mk.injEq] at h
        obtain ⟨-, h2, -⟩ := h
        rw [← h2]
        exact hs.1
      | cont q2 mq2 parsed2 =>
        rw [hstep] at h hs
        have := ih q2 hasPool mq2 num_tok parsed2 code q mq h
        omega
      | stuck =>
        rw [hstep] at h
        exact absurd h (by simp)
    · rw [if_neg hg] at h
      simp only [Option.some.injEq, Prod.mk.injEq] at h
      obtain ⟨-, h2, -⟩ := h
      rw [← h2]

/-- Across a run of the dispatch loop that ends with a non-negative return,
the accumulated count never decreases: the return value is at least the
count the loop started with. -/
theorem parseLoop_parsed_le (cfg : Config) (text : List Nat) (textlen : Nat) :
    ∀ fuel p hasPool m num_tok parsed code q mq,
      parseLoop cfg text textlen fuel p hasPool m num_tok parsed =
        some (code, q, mq) → 0 ≤ code → parsed ≤ code.toNat := by
  intro fuel
  induction fuel with
  | zero =>
    intro p _ _ _ _ code q mq h _
    exact absurd h (by simp [parseLoop])
  | succ f ih =>
    intro p hasPool m num_tok parsed code q mq h hc
    rw [parseLoop] at h
    by_cases hg : byteAt text p.pos ≠ 0 ∧ p.pos < textlen
    · rw [if_pos hg] at h
      have hs := parseStep_spec cfg text textlen p hasPool m num_tok parsed
      cases hstep : parseStep cfg text textlen p hasPool m num_tok parsed with
      | done code2 q2 mq2 =>
        rw [hstep] at h hs
        simp only [Option.some.injEq, Prod.mk.injEq] at h
        obtain ⟨h1, -, -⟩ := h
        rw [← h1] at hc
        omega
      | cont q2 mq2 parsed2 =>
        rw [hstep] at h hs
        have := ih q2 hasPool mq2 num_tok parsed2 code q mq h hc
        omega
      | stuck =>
        rw [hstep] at h
        exact absurd h (by simp)
    · rw [if_neg hg] at h
      simp only [Option.some.injEq, Prod.mk.injEq] at h
      obtain ⟨h1, -, -⟩ := h
      rw [← h1]
      simp

/-- C1: the claim that the allocator reports exhaustion exactly when
`next_slot` has reached `capacity` (so 3 fields into a 2-slot array yield
NOT_ENOUGH_MEM and no store at index ≥ 2) is what the spec mandates, but the
code uses `toknext > num_tok` instead of `>=`: parsing `a,b,c` with capacity
2 returns 3 (success) and stores to slot index 2, one past the declared
capacity, and an allocation with `toknext = num_tok` still succeeds. -/
theorem claim_C1_code_eval :
    parseRet (csvn_parse cfgDefault [97, 44, 98, 44, 99] 5 csvn_init true memInit 2) =
      some 3 ∧
    parseRet (csvn_parse cfgDefault [97, 44, 98, 44, 99] 5 csvn_init true memInit 2) ≠
      some NOT_ENOUGH_MEM ∧
    parseWritten (csvn_parse cfgDefault [97, 44, 98, 44, 99] 5 csvn_init true memInit 2) =
      some [0, 0, 1, 1, 2, 2] ∧
    (csvn_allocate_token ⟨0, 2, 1⟩ true memInit 2).isSome = true :=
  ⟨by decide, by decide, by decide, by rfl⟩

/-- C2: the claim (and the spec) requires unquoted fields to be tagged
`Text`, distinguishable from `Quoted`; the code tags both quoted and
unquoted fields `DQUOTE` (src/csvn.h line 343): parsing the unquoted field
`a` yields kind DQUOTE, the same kind the quoted field `"a"` gets. -/
theorem claim_C2_code_eval :
    (parseTok (csvn_parse cfgDefault [97] 1 csvn_init true memInit 4) 0).map
      (fun t => t.token) = some .DQUOTE ∧
    (parseTok (csvn_parse cfgDefault [34, 97, 34] 3 csvn_init true memInit 4) 0).map
      (fun t => t.token) = some .DQUOTE ∧
    csv_tok.DQUOTE ≠ csv_tok.TEXT :=
  ⟨by decide, by decide, by decide⟩

/-- C3, counterexample to the claim as stated: for `a,,b` under the default
policy the middle descriptor has `size = 1` (it spans the two adjacent
delimiter positions, `start = 1`, `end = 2`), not the claimed zero span. -/
theorem claim_C3_counterexample :
    (parseTok (csvn_parse cfgDefault [97, 44, 44, 98] 4 csvn_init true memInit 10) 1).map
      (fun t => t.size) = some 1 ∧
    (parseTok (csvn_parse cfgDefault [97, 44, 44, 98] 4 csvn_init true memInit 10) 1).map
      (fun t => t.size) ≠ some 0 :=
  ⟨by decide, by decide⟩

/-- C3 as amended: `a,,b` yields 3 fields under the default policy, the
middle descriptor being `kind = Empty` with `start = 1`, `end = 2`,
`size = 1` (spanning the two adjacent delimiters); the same input returns
INVALID_CHARACTER under no-empty-fields and yields 2 fields under
ignore-empty-fields. -/
theorem claim_C3_amended :
    (parseRet (csvn_parse cfgDefault [97, 44, 44, 98] 4 csvn_init true memInit 10) =
        some 3 ∧
      parseTok (csvn_parse cfgDefault [97, 44, 44, 98] 4 csvn_init true memInit 10) 1 =
        some ⟨1, 2, 1, 1, .EMPTY⟩) ∧
    parseRet (csvn_parse cfgNoEmpty [97, 44, 44, 98] 4 csvn_init true memInit 10) =
      some INVALID_CHARACTER ∧
    parseRet (csvn_parse cfgIgnoreEmpty [97, 44, 44, 98] 4 csvn_init true memInit 10) =
      some 2 :=
  ⟨⟨by decide, by decide⟩, by decide, by decide⟩

/-- C4, counterexample to the claim as stated: for `"a""b"` the single
descriptor spans bytes 1..4, and `buffer[start..=end]` is `a""b` (bytes
97, 34, 34, 98) — the doubled quote is NOT decoded in the buffer substring,
so the substring is not the claimed `a"b` (97, 34, 98). -/
theorem claim_C4_counterexample :
    (parseTok (csvn_parse cfgDefault [34, 97, 34, 34, 98, 34] 6 csvn_init true memInit 5) 0).map
      (fun t => fieldBytes [34, 97, 34, 34, 98, 34] t) = some [97, 34, 34, 98] ∧
    (parseTok (csvn_parse cfgDefault [34, 97, 34, 34, 98, 34] 6 csvn_init true memInit 5) 0).map
      (fun t => fieldBytes [34, 97, 34, 34, 98, 34] t) ≠ some [97, 34, 98] :=
  ⟨by decide, by decide⟩

/-- C4 as amended: `"a""b"` parses to exactly one field of kind Quoted whose
span is `start = 1`, `end = 4`, and whose buffer substring is `a""b` — the
escaped quote stays doubled in the span (decoding is left to the caller);
collapsing the doubled quote yields `a"b`. -/
theorem claim_C4_amended :
    parseRet (csvn_parse cfgDefault [34, 97, 34, 34, 98, 34] 6 csvn_init true memInit 5) =
      some 1 ∧
    parseTok (csvn_parse cfgDefault [34, 97, 34, 34, 98, 34] 6 csvn_init true memInit 5) 0 =
      some ⟨1, 4, 1, 3, .DQUOTE⟩ ∧
    (parseTok (csvn_parse cfgDefault [34, 97, 34, 34, 98, 34] 6 csvn_init true memInit 5) 0).map
      (fun t => fieldBytes [34, 97, 34, 34, 98, 34] t) = some [97, 34, 34, 98] :=
  ⟨by decide, by decide, by decide⟩

/-- C7: parsing `a,b\nc,d` yields four descriptors with `line` fields
1, 1, 2, 2; and, in general, the dispatch loop's newline case increments the
cursor's line counter, produces no descriptor and counts no field. -/
theorem claim_C7_line_tracking :
    (parseRet (csvn_parse cfgDefault [97, 44, 98, 10, 99, 44, 100] 7 csvn_init true memInit 10) =
        some 4 ∧
      (parseTok (csvn_parse cfgDefault [97, 44, 98, 10, 99, 44, 100] 7 csvn_init true memInit 10) 0).map
        (fun t => t.line) = some 1 ∧
      (parseTok (csvn_parse cfgDefault [97, 44, 98, 10, 99, 44, 100] 7 csvn_init true memInit 10) 1).map
        (fun t => t.line) = some 1 ∧
      (parseTok (csvn_parse cfgDefault [97, 44, 98, 10, 99, 44, 100] 7 csvn_init true memInit 10) 2).map
        (fun t => t.line) = some 2 ∧
      (parseTok (csvn_parse cfgDefault [97, 44, 98, 10, 99, 44, 100] 7 csvn_init true memInit 10) 3).map
        (fun t => t.line) = some 2) ∧
    (∀ (cfg : Config) (text : List Nat) (textlen : Nat) (p : csv_p)
        (hasPool : Bool) (m : Mem) (num_tok parsed : Nat),
      byteAt text p.pos = cfg.nl →
      parseStep cfg text textlen p hasPool m num_tok parsed =
        .cont { p with line := p.line + 1, pos := p.pos + 1 } m parsed) := by
  refine ⟨⟨by decide, by decide, by decide, by decide, by decide⟩, ?_⟩
  intro cfg text textlen p hasPool m num_tok parsed hnl
  unfold parseStep
  rw [if_pos hnl]

/-- Witness for C7's general conjunct at a concrete newline byte. -/
theorem claim_C7_line_tracking_witness :
    byteAt [10, 97] 0 = cfgDefault.nl ∧
    parseStep cfgDefault [10, 97] 2 csvn_init true memInit 4 0 =
      .cont ⟨1, 0, 2⟩ memInit 0 :=
  ⟨by decide, claim_C7_line_tracking.2 cfgDefault [10, 97] 2 csvn_init true memInit 4 0 (by decide)⟩

/-- C8: within one parse call the cursor position is monotonically
non-decreasing: across any dispatch-loop run, across any quoted-field scan,
and across any unquoted-field scan entered (as the dispatch loop does) on a
byte that is neither the newline nor the delimiter — in particular the
scanner's stop-one-byte-before-the-delimiter step never undershoots the
entry position. -/
theorem claim_C8_pos_monotone :
    (∀ (cfg : Config) (text : List Nat) (textlen fuel : Nat) (p : csv_p)
        (hasPool : Bool) (m : Mem) (num_tok parsed : Nat) (code : Int)
        (q : csv_p) (mq : Mem),
      parseLoop cfg text textlen fuel p hasPool m num_tok parsed =
        some (code, q, mq) → p.pos ≤ q.pos) ∧
    (∀ (cfg : Config) (text : List Nat) (textlen : Nat) (p : csv_p)
        (hasPool : Bool) (m : Mem) (num_tok : Nat) (r : Int × csv_p × Mem),
      csvn_parse_quotes cfg text textlen p hasPool m num_tok = some r →
      p.pos ≤ r.2.1.pos) ∧
    (∀ (cfg : Config) (text : List Nat) (textlen : Nat) (p : csv_p)
        (hasPool : Bool) (m : Mem) (num_tok : Nat) (r : Int × csv_p × Mem),
      byteAt text p.pos ≠ cfg.nl → byteAt text p.pos ≠ cfg.delim →
      csvn_parse_normal cfg text textlen p hasPool m num_tok = some r →
      p.pos ≤ r.2.1.pos) := by
  refine ⟨fun cfg text textlen fuel p hasPool m num_tok parsed code q mq h =>
      parseLoop_pos_mono cfg text textlen fuel p hasPool m num_tok parsed code q mq h,
    ?_, ?_⟩
  · intro cfg text textlen p hasPool m num_tok r h
    obtain ⟨r0, hr0, hpos, -⟩ :=
      csvn_parse_quotes_spec cfg text textlen p hasPool m num_tok
    rw [h] at hr0
    injection hr0 with hr0
    rw [hr0]
    exact hpos
  · intro cfg text textlen p hasPool m num_tok r hnl hdl h
    obtain ⟨r0, hr0, hpos, -⟩ :=
      csvn_parse_normal_spec cfg text textlen p hasPool m num_tok
    rw [h] at hr0
    injection hr0 with hr0
    rw [hr0]
    exact hpos ⟨hnl, hdl⟩

/-- Witness for C8 at a concrete run: parsing `a` moves the cursor from 0
to 2 and all three monotonicity statements apply. -/
theorem claim_C8_pos_monotone_witness :
    (parseLoop cfgDefault [97] 1 2 csvn_init false memInit 0 0 =
        some (1, ⟨2, 0, 1⟩, memInit) ∧ csvn_init.pos ≤ (⟨2, 0, 1⟩ : csv_p).pos) ∧
    (csvn_parse_quotes cfgDefault [97] 1 ⟨1, 0, 1⟩ false memInit 0 =
        some (0, ⟨1, 0, 1⟩, memInit) ∧ (⟨1, 0, 1⟩ : csv_p).pos ≤ (⟨1, 0, 1⟩ : csv_p).pos) ∧
    (byteAt [97] 0 ≠ cfgDefault.nl ∧ byteAt [97] 0 ≠ cfgDefault.delim ∧
      csvn_parse_normal cfgDefault [97] 1 csvn_init false memInit 0 =
        some (0, ⟨1, 0, 1⟩, memInit) ∧ csvn_init.pos ≤ (⟨1, 0, 1⟩ : csv_p).pos) :=
  ⟨⟨by rfl, claim_C8_pos_monotone.1 cfgDefault [97] 1 2 csvn_init false memInit 0 0
      1 ⟨2, 0, 1⟩ memInit (by rfl)⟩,
    ⟨by rfl, claim_C8_pos_monotone.2.1 cfgDefault [97] 1 ⟨1, 0, 1⟩ false memInit 0
      (0, ⟨1, 0, 1⟩, memInit) (by rfl)⟩,
    ⟨by decide, by decide, by rfl,
      claim_C8_pos_monotone.2.2 cfgDefault [97] 1 csvn_init false memInit 0
        (0, ⟨1, 0, 1⟩, memInit) (by decide) (by decide) (by rfl)⟩⟩

/-- C10: parsing terminates on every finite buffer: `csvn_parse` supplies
the dispatch loop `(textlen - pos) + 1` units of fuel (one per iteration)
and never runs out, because every iteration whose guard holds strictly
increases the cursor position. -/
theorem claim_C10_termination :
    (∀ (cfg : Config) (text : List Nat) (textlen : Nat) (p : csv_p)
        (hasPool : Bool) (m : Mem) (num_tok : Nat),
      (csvn_parse cfg text textlen p hasPool m num_tok).isSome) ∧
    (∀ (cfg : Config) (text : List Nat) (textlen : Nat) (p : csv_p)
        (hasPool : Bool) (m : Mem) (num_tok parsed : Nat) (q : csv_p)
        (mq : Mem) (parsed2 : Nat),
      parseStep cfg text textlen p hasPool m num_tok parsed =
        .cont q mq parsed2 → p.pos < q.pos) := by
  constructor
  · intro cfg text textlen p hasPool m num_tok
    unfold csvn_parse
    exact parseLoop_isSome cfg text textlen _ p hasPool m num_tok 0 (by omega)
  · intro cfg text textlen p hasPool m num_tok parsed q mq parsed2 h
    have hs := parseStep_spec cfg text textlen p hasPool m num_tok parsed
    rw [h] at hs
    omega

/-- Witness for C10 at a concrete buffer and a concrete dispatch step. -/
theorem claim_C10_termination_witness :
    (csvn_parse cfgDefault [97, 44, 98] 3 csvn_init true memInit 4).isSome ∧
    (parseStep cfgDefault [97] 1 csvn_init false memInit 0 0 =
        .cont ⟨2, 0, 1⟩ memInit 1 ∧ csvn_init.pos < 2) :=
  ⟨claim_C10_termination.1 cfgDefault [97, 44, 98] 3 csvn_init true memInit 4,
    by rfl,
    claim_C10_termination.2 cfgDefault [97] 1 csvn_init false memInit 0 0
      ⟨2, 0, 1⟩ memInit 1 (by rfl)⟩

/-- C9: the empty-field policy only ever fires between two adjacent
delimiter bytes.  Whenever the byte under the cursor is the delimiter and
the next byte is the newline or the NUL terminator (end of input), the
dispatch iteration just consumes the delimiter: no descriptor is stored, the
token array is untouched and the field count unchanged — whatever the
empty-field policy flags are; consequently the loop simply continues one
byte further. -/
theorem claim_C9_empty_policy_scope :
    (∀ (cfg : Config) (text : List Nat) (textlen : Nat) (p : csv_p)
        (hasPool : Bool) (m : Mem) (num_tok parsed : Nat),
      cfg.skipWhitespace = false → cfg.delim ≠ 0 → cfg.nl ≠ cfg.delim →
      byteAt text p.pos = cfg.delim →
      (byteAt text (p.pos + 1) = cfg.nl ∨ byteAt text (p.pos + 1) = 0) →
      parseStep cfg text textlen p hasPool m num_tok parsed =
        .cont { p with pos := p.pos + 1 } m parsed) ∧
    (∀ (cfg : Config) (text : List Nat) (textlen fuel : Nat) (p : csv_p)
        (hasPool : Bool) (m : Mem) (num_tok parsed : Nat),
      cfg.skipWhitespace = false → cfg.delim ≠ 0 → cfg.nl ≠ cfg.delim →
      byteAt text p.pos = cfg.delim →
      (byteAt text (p.pos + 1) = cfg.nl ∨ byteAt text (p.pos + 1) = 0) →
      p.pos < textlen →
      parseLoop cfg text textlen (fuel + 1) p hasPool m num_tok parsed =
        parseLoop cfg text textlen fuel { p with pos := p.pos + 1 }
          hasPool m num_tok parsed) := by
  have hstep : ∀ (cfg : Config) (text : List Nat) (textlen : Nat) (p : csv_p)
      (hasPool : Bool) (m : Mem) (num_tok parsed : Nat),
      cfg.skipWhitespace = false → cfg.delim ≠ 0 → cfg.nl ≠ cfg.delim →
      byteAt text p.pos = cfg.delim →
      (byteAt text (p.pos + 1) = cfg.nl ∨ byteAt text (p.pos + 1) = 0) →
      parseStep cfg text textlen p hasPool m num_tok parsed =
        .cont { p with pos := p.pos + 1 } m parsed := by
    intro cfg text textlen p hasPool m num_tok parsed hsw hd0 hnd hbd hnext
    have hne_nl : ¬ byteAt text p.pos = cfg.nl := by
      rw [hbd]
      exact fun h => hnd h.symm
    unfold parseStep
    rw [if_neg hne_nl, if_pos hbd]
    have hne_dd : ¬ byteAt text (p.pos + 1) = cfg.delim := by
      rcases hnext with h | h
      · rw [h]; exact fun h2 => hnd h2
      · rw [h]; exact fun h2 => hd0 h2.symm
    simp only [hsw, Bool.false_eq_true, if_false, hne_dd, if_neg]
  refine ⟨hstep, ?_⟩
  intro cfg text textlen fuel p hasPool m num_tok parsed hsw hd0 hnd hbd hnext hlt
  rw [parseLoop]
  have hguard : byteAt text p.pos ≠ 0 ∧ p.pos < textlen := by
    constructor
    · rw [hbd]; exact hd0
    · exact hlt
  rw [if_pos hguard,
    hstep cfg text textlen p hasPool m num_tok parsed hsw hd0 hnd hbd hnext]

/-- Witness for C9 at the delimiter of `a,\nb` (delimiter followed by a
newline): the iteration consumes only the delimiter. -/
theorem claim_C9_empty_policy_scope_witness :
    parseStep cfgDefault [97, 44, 10, 98] 4 ⟨1, 0, 1⟩ true memInit 10 0 =
      .cont ⟨2, 0, 1⟩ memInit 0 ∧
    parseLoop cfgDefault [97, 44, 10, 98] 4 3 ⟨1, 0, 1⟩ true memInit 10 0 =
      parseLoop cfgDefault [97, 44, 10, 98] 4 2 ⟨2, 0, 1⟩ true memInit 10 0 :=
  ⟨claim_C9_empty_policy_scope.1 cfgDefault [97, 44, 10, 98] 4 ⟨1, 0, 1⟩ true memInit 10 0
      (by rfl) (by decide) (by decide) (by decide) (Or.inl (by decide)),
    claim_C9_empty_policy_scope.2 cfgDefault [97, 44, 10, 98] 4 2 ⟨1, 0, 1⟩ true memInit 10 0
      (by rfl) (by decide) (by decide) (by decide) (Or.inl (by decide)) (by decide)⟩

/-- The whitespace loop's behaviour is independent of `toknext`: two runs
differing only in `toknext` stay in lock-step. -/
theorem wsLoop_shift (text : List Nat) :
    ∀ (fuel pp pl t t0 : Nat),
      (wsLoop text fuel ⟨pp, t, pl⟩ = none ∧ wsLoop text fuel ⟨pp, t0, pl⟩ = none) ∨
      (∃ qp ql, wsLoop text fuel ⟨pp, t, pl⟩ = some ⟨qp, t, ql⟩ ∧
        wsLoop text fuel ⟨pp, t0, pl⟩ = some ⟨qp, t0, ql⟩) := by
  intro fuel
  induction fuel with
  | zero => intro pp pl t t0; exact Or.inl ⟨rfl, rfl⟩
  | succ f ih =>
    intro pp pl t t0
    rw [wsLoop, wsLoop]
    by_cases hb : byteAt text pp = 32
    · simp only [hb, if_pos]
      exact ih (pp + 1) pl t t0
    · simp only [hb, if_neg]
      exact Or.inr ⟨pp, pl, rfl, rfl⟩

/-- The quoted-field scan loop's behaviour is independent of `toknext`. -/
theorem quotesLoop_shift (cfg : Config) (text : List Nat) (textlen : Nat) :
    ∀ (fuel pp pl t t0 fl : Nat),
      (quotesLoop cfg text textlen fuel ⟨pp, t, pl⟩ fl = none ∧
        quotesLoop cfg text textlen fuel ⟨pp, t0, pl⟩ fl = none) ∨
      (∃ qp ql fl2, quotesLoop cfg text textlen fuel ⟨pp, t, pl⟩ fl = some (⟨qp, t, ql⟩, fl2) ∧
        quotesLoop cfg text textlen fuel ⟨pp, t0, pl⟩ fl = some (⟨qp, t0, ql⟩, fl2)) := by
  intro fuel
  induction fuel with
  | zero => intro pp pl t t0 fl; exact Or.inl ⟨rfl, rfl⟩
  | succ f ih =>
    intro pp pl t t0 fl
    rw [quotesLoop, quotesLoop]
    by_cases hg : byteAt text pp ≠ 0 ∧ pp < textlen
    · simp only [if_pos hg]
      by_cases h1 : byteAt text pp = 34 ∧ byteAt text (pp + 1) = 34
      · simp only [if_pos h1]
        exact ih (pp + 2) pl t t0 fl
      · simp only [if_neg h1]
        by_cases h2 : byteAt text pp = 34 ∧ byteAt text (pp + 1) ≠ 34
        · simp only [if_pos h2]
          exact Or.inr ⟨pp, pl, fl, rfl, rfl⟩
        · simp only [if_neg h2]
          by_cases h3 : byteAt text pp = cfg.nl
          · simp only [if_pos h3]
            exact ih (pp + 1) (pl + 1) t t0 (if cfg.considerNl then fl + 1 else fl)
          · simp only [if_neg h3]
            exact ih (pp + 1) pl t t0 fl
    · simp only [if_neg hg]
      exact Or.inr ⟨pp, pl, fl, rfl, rfl⟩

/-- The unquoted-field scan loop's behaviour is independent of `toknext`. -/
theorem normalLoop_shift (cfg : Config) (text : List Nat) (textlen : Nat) :
    ∀ (fuel pp pl t t0 : Nat),
      (normalLoop cfg text textlen fuel ⟨pp, t, pl⟩ = none ∧
        normalLoop cfg text textlen fuel ⟨pp, t0, pl⟩ = none) ∨
      (∃ c qp, normalLoop cfg text textlen fuel ⟨pp, t, pl⟩ = some (c, ⟨qp, t, pl⟩) ∧
        normalLoop cfg text textlen fuel ⟨pp, t0, pl⟩ = some (c, ⟨qp, t0, pl⟩)) := by
  intro fuel
  induction fuel with
  | zero => intro pp pl t t0; exact Or.inl ⟨rfl, rfl⟩
  | succ f ih =>
    intro pp pl t t0
    rw [normalLoop, normalLoop]
    by_cases hg : byteAt text pp ≠ 0 ∧ pp < textlen ∧
        byteAt text pp ≠ cfg.nl ∧ byteAt text pp ≠ cfg.delim
    · simp only [if_pos hg]
      by_cases hq : cfg.strict ∧ byteAt text pp = 34
      · simp only [if_pos hq]
        exact Or.inr ⟨INVALID_CHARACTER, pp, rfl, rfl⟩
      · simp only [if_neg hq]
        exact ih (pp + 1) pl t t0
    · simp only [if_neg hg]
      exact Or.inr ⟨0, pp, rfl, rfl⟩

/-- Counting mode never fails in the quoted-field scanner and leaves the
array untouched; a storing run from the same position (any `toknext = t`
with `t ≤ num_tok`, any array) reaches the same position and line and has
allocated exactly one more slot. -/
theorem csvn_parse_quotes_sim (cfg : Config) (text : List Nat) (textlen : Nat)
    (pp pl t t0 num_tok : Nat) (m1 m2 : Mem) (ht : t ≤ num_tok) :
    ∃ qp ql,
      csvn_parse_quotes cfg text textlen ⟨pp, t0, pl⟩ false m1 0 =
        some (0, ⟨qp, t0, ql⟩, m1) ∧
      ∃ m2', csvn_parse_quotes cfg text textlen ⟨pp, t, pl⟩ true m2 num_tok =
        some (0, ⟨qp, t + 1, ql⟩, m2') := by
  rcases quotesLoop_shift cfg text textlen (textlen + 1) pp pl t t0 pl with
    ⟨hn, -⟩ | ⟨qp, ql, fl2, h1, h2⟩
  · obtain ⟨r, hr, -, -⟩ :=
      quotesLoop_spec cfg text textlen (textlen + 1) ⟨pp, t, pl⟩ pl (by simp; omega)
    rw [hn] at hr
    cases hr
  · refine ⟨qp, ql, ?_, ?_⟩
    · simp only [csvn_parse_quotes, h2]
      rfl
    · simp only [csvn_parse_quotes, h1]
      rw [csvn_allocate_token_le ht]
      exact ⟨_, rfl⟩

/-- Counting mode in the unquoted-field scanner returns 0 or
INVALID_CHARACTER and leaves the array untouched; a storing run from the
same position mirrors it: same error, or (when capacity remains, including
the off-by-one slot) the same cursor with one more slot allocated. -/
theorem csvn_parse_normal_sim (cfg : Config) (text : List Nat) (textlen : Nat)
    (pp pl t t0 num_tok : Nat) (m1 m2 : Mem) :
    ∃ c qp,
      csvn_parse_normal cfg text textlen ⟨pp, t0, pl⟩ false m1 0 =
        some (c, ⟨qp, t0, pl⟩, m1) ∧
      (c = 0 ∨ c = INVALID_CHARACTER) ∧
      (¬ c = 0 → csvn_parse_normal cfg text textlen ⟨pp, t, pl⟩ true m2 num_tok =
        some (c, ⟨qp, t, pl⟩, m2)) ∧
      (c = 0 → t ≤ num_tok → ∃ m2',
        csvn_parse_normal cfg text textlen ⟨pp, t, pl⟩ true m2 num_tok =
          some (0, ⟨qp, t + 1, pl⟩, m2')) := by
  rcases normalLoop_shift cfg text textlen (textlen + 1) pp pl t t0 with
    ⟨hn, -⟩ | ⟨c0, qp0, h1, h2⟩
  · obtain ⟨r, hr, -⟩ :=
      normalLoop_spec cfg text textlen (textlen + 1) ⟨pp, t, pl⟩ (by simp; omega)
    rw [hn] at hr
    cases hr
  · have hcode : c0 = 0 ∨ c0 = INVALID_CHARACTER := by
      obtain ⟨r, hr, -, -, -, hc⟩ :=
        normalLoop_spec cfg text textlen (textlen + 1) ⟨pp, t0, pl⟩ (by simp; omega)
      rw [h2] at hr
      injection hr with hr
      rw [← hr] at hc
      rcases hc with hc | ⟨-, hc⟩
      · exact Or.inl hc
      · exact Or.inr hc
    by_cases hc : c0 ≠ 0
    · refine ⟨c0, qp0, ?_, hcode, fun _ => ?_, fun h0 => absurd h0 hc⟩
      · simp only [csvn_parse_normal, h2, if_pos hc]
      · simp only [csvn_parse_normal, h1, if_pos hc]
    · rw [not_not] at hc
      by_cases hdec : byteAt text qp0 = cfg.nl ∨ byteAt text qp0 = cfg.delim
      · refine ⟨0, qp0 - 1, ?_, Or.inl rfl, fun h0 => absurd rfl h0, fun _ ht => ?_⟩
        · rw [← hc]
          simp only [csvn_parse_normal, h2, if_neg (by omega : ¬ c0 ≠ 0)]
          simp only [if_pos hdec]
          rw [hc]
          rfl
        · simp only [csvn_parse_normal, h1, if_neg (by omega : ¬ c0 ≠ 0)]
          simp only [if_pos hdec]
          rw [csvn_allocate_token_le ht]
          exact ⟨_, rfl⟩
      · refine ⟨0, qp0, ?_, Or.inl rfl, fun h0 => absurd rfl h0, fun _ ht => ?_⟩
        · rw [← hc]
          simp only [csvn_parse_normal, h2, if_neg (by omega : ¬ c0 ≠ 0)]
          simp only [if_neg hdec]
          rw [hc]
          rfl
        · simp only [csvn_parse_normal, h1, if_neg (by omega : ¬ c0 ≠ 0)]
          simp only [if_neg hdec]
          rw [csvn_allocate_token_le ht]
          exact ⟨_, rfl⟩

/-- One counting-mode dispatch iteration that falls through to the next
iteration is mirrored by the storing-mode iteration from the same position:
the count grows by at most one, the cursor agrees except for `toknext`, and
when capacity remains for the (at most one) allocation the storing iteration
falls through with `toknext` advanced by exactly the count increment. -/
theorem parseStep_sim (cfg : Config) (text : List Nat) (textlen : Nat)
    (pp pl t t0 num_tok parsed : Nat) (m1 m2 : Mem) :
    ∀ q mq parsed2,
      parseStep cfg text textlen ⟨pp, t0, pl⟩ false m1 0 parsed = .cont q mq parsed2 →
      (parsed2 = parsed ∨ parsed2 = parsed + 1) ∧
      ∃ qp ql, q = ⟨qp, t0, ql⟩ ∧
        ((parsed2 = parsed + 1 → t ≤ num_tok) →
          ∃ m2', parseStep cfg text textlen ⟨pp, t, pl⟩ true m2 num_tok parsed =
            .cont ⟨qp, t + (parsed2 - parsed), ql⟩ m2' parsed2) := by
  intro q mq parsed2 h
  by_cases hnl : byteAt text pp = cfg.nl
  · simp only [parseStep, if_pos hnl, StepRes.cont.injEq] at h
    obtain ⟨hq, -, hp2⟩ := h
    refine ⟨Or.inl hp2.symm, pp + 1, pl + 1, hq.symm, fun _ => ⟨m2, ?_⟩⟩
    simp only [parseStep, if_pos hnl]
    rw [← hp2]
    have heq : t + (parsed - parsed) = t := by omega
    rw [heq]
  · by_cases hdl : byteAt text pp = cfg.delim
    · have hws : ∃ wq wl,
          (if cfg.skipWhitespace = true then
              wsLoop text (text.length + 1) ⟨pp + 1, t0, pl⟩
            else some ⟨pp + 1, t0, pl⟩) = some ⟨wq, t0, wl⟩ ∧
          (if cfg.skipWhitespace = true then
              wsLoop text (text.length + 1) ⟨pp + 1, t, pl⟩
            else some ⟨pp + 1, t, pl⟩) = some ⟨wq, t, wl⟩ := by
        by_cases hsw : cfg.skipWhitespace = true
        · rw [if_pos hsw, if_pos hsw]
          rcases wsLoop_shift text (text.length + 1) (pp + 1) pl t t0 with
            ⟨hna, -⟩ | ⟨wq, wl, hw1, hw2⟩
          · obtain ⟨r, hr, -⟩ :=
              wsLoop_spec text (text.length + 1) ⟨pp + 1, t, pl⟩ (by simp; omega)
            rw [hna] at hr
            cases hr
          · exact ⟨wq, wl, hw2, hw1⟩
        · rw [if_neg hsw, if_neg hsw]
          exact ⟨pp + 1, pl, rfl, rfl⟩
      obtain ⟨wq, wl, hws0, hwst⟩ := hws
      simp only [parseStep, if_neg hnl, if_pos hdl, hws0] at h
      simp only [parseStep, if_neg hnl, if_pos hdl, hwst]
      by_cases hdd : byteAt text wq = cfg.delim
      · simp only [if_pos hdd] at h ⊢
        by_cases hne : cfg.noEmptyField = true
        · simp only [if_pos hne] at h
          cases h
        · simp only [if_neg hne] at h ⊢
          by_cases hie : cfg.ignoreEmptyField = true
          · simp only [if_pos hie, StepRes.cont.injEq] at h
            simp only [if_pos hie]
            obtain ⟨hq, -, hp2⟩ := h
            refine ⟨Or.inl hp2.symm, wq, wl, hq.symm, fun _ => ⟨m2, ?_⟩⟩
            rw [← hp2]
            have heq : t + (parsed - parsed) = t := by omega
            rw [heq]
          · simp only [if_neg hie] at h ⊢
            rw [if_neg (by decide : ¬ (false = true))] at h
            simp only [StepRes.cont.injEq] at h
            obtain ⟨hq, -, hp2⟩ := h
            refine ⟨Or.inr hp2.symm, wq, wl, hq.symm, fun hcap => ?_⟩
            have ht : t ≤ num_tok := hcap hp2.symm
            simp only [if_true]
            rw [csvn_allocate_token_le ht]
            have heq : t + (parsed2 - parsed) = t + 1 := by omega
            rw [heq, ← hp2]
            exact ⟨_, rfl⟩
      · simp only [if_neg hdd, StepRes.cont.injEq] at h ⊢
        obtain ⟨hq, -, hp2⟩ := h
        refine ⟨Or.inl hp2.symm, wq, wl, hq.symm, fun _ => ⟨m2, ?_⟩⟩
        rw [← hp2]
        have heq : t + (parsed - parsed) = t := by omega
        rw [heq]
        exact ⟨rfl, rfl, rfl⟩
    · by_cases hq34 : byteAt text pp = 34
      · obtain ⟨qp, ql, hcnt, -⟩ :=
          csvn_parse_quotes_sim cfg text textlen (pp + 1) pl 0 t0 0 m1 m1 (Nat.le_refl 0)
        simp only [parseStep, if_neg hnl, if_neg hdl, if_pos hq34, hcnt] at h
        rw [if_neg (by decide : ¬ ((0 : Int) ≠ 0))] at h
        by_cases hst : cfg.strict = true
        · simp only [if_pos hst] at h
          by_cases hnx : byteAt text (qp + 1) = cfg.delim ∨ byteAt text (qp + 1) = cfg.nl
          · simp only [if_pos hnx, StepRes.cont.injEq] at h
            obtain ⟨hq, -, hp2⟩ := h
            refine ⟨Or.inr hp2.symm, qp + 1, ql, hq.symm, fun hcap => ?_⟩
            have ht : t ≤ num_tok := hcap hp2.symm
            obtain ⟨qp2, ql2, hcnt2, m2', hst2⟩ :=
              csvn_parse_quotes_sim cfg text textlen (pp + 1) pl t t0 num_tok m1 m2 ht
            rw [hcnt] at hcnt2
            injection hcnt2 with hcnt2
            simp only [Prod.mk.injEq, csv_p.mk.injEq] at hcnt2
            obtain ⟨-, ⟨hqp, -, hql⟩, -⟩ := hcnt2
            rw [← hqp, ← hql] at hst2
            simp only [parseStep, if_neg hnl, if_neg hdl, if_pos hq34, hst2]
            rw [if_neg (by decide : ¬ ((0 : Int) ≠ 0))]
            simp only [if_pos hst, if_pos hnx]
            have heq : t + (parsed2 - parsed) = t + 1 := by omega
            rw [heq, ← hp2]
            exact ⟨m2', rfl⟩
          · simp only [if_neg hnx] at h
            by_cases hin : byteAt text (qp + 1) ≠ 0 ∧ qp + 1 < textlen
            · simp only [if_pos hin] at h
              cases h
            · simp only [if_neg hin, StepRes.cont.injEq] at h
              obtain ⟨hq, -, hp2⟩ := h
              refine ⟨Or.inr hp2.symm, qp + 1, ql, hq.symm, fun hcap => ?_⟩
              have ht : t ≤ num_tok := hcap hp2.symm
              obtain ⟨qp2, ql2, hcnt2, m2', hst2⟩ :=
                csvn_parse_quotes_sim cfg text textlen (pp + 1) pl t t0 num_tok m1 m2 ht
              rw [hcnt] at hcnt2
              injection hcnt2 with hcnt2
              simp only [Prod.mk.injEq, csv_p.mk.injEq] at hcnt2
              obtain ⟨-, ⟨hqp, -, hql⟩, -⟩ := hcnt2
              rw [← hqp, ← hql] at hst2
              simp only [parseStep, if_neg hnl, if_neg hdl, if_pos hq34, hst2]
              rw [if_neg (by decide : ¬ ((0 : Int) ≠ 0))]
              simp only [if_pos hst, if_neg hnx, if_neg hin]
              have heq : t + (parsed2 - parsed) = t + 1 := by omega
              rw [heq, ← hp2]
              exact ⟨m2', rfl⟩
        · simp only [if_neg hst, StepRes.cont.injEq] at h
          obtain ⟨hq, -, hp2⟩ := h
          refine ⟨Or.inr hp2.symm, qp + 1, ql, hq.symm, fun hcap => ?_⟩
          have ht : t ≤ num_tok := hcap hp2.symm
          obtain ⟨qp2, ql2, hcnt2, m2', hst2⟩ :=
            csvn_parse_quotes_sim cfg text textlen (pp + 1) pl t t0 num_tok m1 m2 ht
          rw [hcnt] at hcnt2
          injection hcnt2 with hcnt2
          simp only [Prod.mk.injEq, csv_p.mk.injEq] at hcnt2
          obtain ⟨-, ⟨hqp, -, hql⟩, -⟩ := hcnt2
          rw [← hqp, ← hql] at hst2
          simp only [parseStep, if_neg hnl, if_neg hdl, if_pos hq34, hst2]
          rw [if_neg (by decide : ¬ ((0 : Int) ≠ 0))]
          simp only [if_neg hst]
          have heq : t + (parsed2 - parsed) = t + 1 := by omega
          rw [heq, ← hp2]
          exact ⟨m2', rfl⟩
      · obtain ⟨c, qp, hcnt, hcode, herr, hok⟩ :=
          csvn_parse_normal_sim cfg text textlen pp pl t t0 num_tok m1 m2
        simp only [parseStep, if_neg hnl, if_neg hdl, if_neg hq34, hcnt] at h
        by_cases hc : c ≠ 0
        · simp only [if_pos hc] at h
          cases h
        · simp only [if_neg hc, StepRes.cont.injEq] at h
          rw [not_not] at hc
          obtain ⟨hq, -, hp2⟩ := h
          refine ⟨Or.inr hp2.symm, qp + 1, pl, hq.symm, fun hcap => ?_⟩
          have ht : t ≤ num_tok := hcap hp2.symm
          obtain ⟨m2', hst2⟩ := hok hc ht
          simp only [parseStep, if_neg hnl, if_neg hdl, if_neg hq34, hst2]
          rw [if_neg (by decide : ¬ ((0 : Int) ≠ 0))]
          have heq : t + (parsed2 - parsed) = t + 1 := by omega
          rw [heq, ← hp2]
          exact ⟨m2', rfl⟩

/-- A successful counting run of the dispatch loop is mirrored by a storing
run from the same start: provided the capacity check (which, through the
allocator's `>` bound, tolerates `toknext` up to `num_tok`) holds for every
allocation, the storing run returns the same count with the same final
cursor position and line, having allocated one slot per counted field. -/
theorem parseLoop_sim (cfg : Config) (text : List Nat) (textlen num_tok : Nat) :
    ∀ (fuel pp pl t t0 parsed : Nat) (m1 m2 : Mem) (code : Int) (q : csv_p) (mq : Mem),
      parseLoop cfg text textlen fuel ⟨pp, t0, pl⟩ false m1 0 parsed =
        some (code, q, mq) →
      0 ≤ code →
      t + (code.toNat - parsed) ≤ num_tok + 1 →
      ∃ m2', parseLoop cfg text textlen fuel ⟨pp, t, pl⟩ true m2 num_tok parsed =
        some (code, ⟨q.pos, t + (code.toNat - parsed), q.line⟩, m2') := by
  intro fuel
  induction fuel with
  | zero =>
    intro pp pl t t0 parsed m1 m2 code q mq h hc hcap
    exact absurd h (by simp [parseLoop])
  | succ f ih =>
    intro pp pl t t0 parsed m1 m2 code q mq h hc hcap
    rw [parseLoop] at h
    rw [parseLoop]
    by_cases hg : byteAt text pp ≠ 0 ∧ pp < textlen
    · rw [if_pos (show byteAt text (⟨pp, t0, pl⟩ : csv_p).pos ≠ 0 ∧
          (⟨pp, t0, pl⟩ : csv_p).pos < textlen from hg)] at h
      rw [if_pos (show byteAt text (⟨pp, t, pl⟩ : csv_p).pos ≠ 0 ∧
          (⟨pp, t, pl⟩ : csv_p).pos < textlen from hg)]
      have hs := parseStep_spec cfg text textlen ⟨pp, t0, pl⟩ false m1 0 parsed
      cases hstep : parseStep cfg text textlen ⟨pp, t0, pl⟩ false m1 0 parsed with
      | done code2 q2 mq2 =>
        rw [hstep] at h hs
        simp only [Option.some.injEq, Prod.mk.injEq] at h
        obtain ⟨h1, -, -⟩ := h
        rw [← h1] at hc
        omega
      | cont q2 mq2 parsed2 =>
        rw [hstep] at h
        obtain ⟨hp2, qp, ql, hq2, hstore⟩ :=
          parseStep_sim cfg text textlen pp pl t t0 num_tok parsed m1 m2 q2 mq2 parsed2 hstep
        rw [hq2] at h
        have hple : parsed2 ≤ code.toNat :=
          parseLoop_parsed_le cfg text textlen f ⟨qp, t0, ql⟩ false mq2 0 parsed2
            code q mq h hc
        obtain ⟨m2', hstep2⟩ := hstore (fun hp21 => by omega)
        rw [hstep2]
        have heq : t + (parsed2 - parsed) + (code.toNat - parsed2) =
            t + (code.toNat - parsed) := by omega
        obtain ⟨m2'', hrest⟩ := ih qp ql (t + (parsed2 - parsed)) t0 parsed2 mq2 m2'
          code q mq h hc (by omega)
        rw [heq] at hrest
        exact ⟨m2'', hrest⟩
      | stuck =>
        rw [hstep] at hs
        exact hs.elim
    · rw [if_neg (show ¬ (byteAt text (⟨pp, t0, pl⟩ : csv_p).pos ≠ 0 ∧
          (⟨pp, t0, pl⟩ : csv_p).pos < textlen) from hg)] at h
      rw [if_neg (show ¬ (byteAt text (⟨pp, t, pl⟩ : csv_p).pos ≠ 0 ∧
          (⟨pp, t, pl⟩ : csv_p).pos < textlen) from hg)]
      simp only [Option.some.injEq, Prod.mk.injEq] at h
      obtain ⟨h1, h2, -⟩ := h
      refine ⟨m2, ?_⟩
      rw [← h1, ← h2]
      have heq : t + ((parsed : Int).toNat - parsed) = t := by simp
      rw [heq]

/-- C5: on any buffer and configuration, if a counting pass (no array,
capacity 0) from a reset cursor returns a non-negative field count `n`, then
a storing pass from a reset cursor with a present array of sufficient
capacity (`num_tok ≥ n`) returns the same count `n`. -/
theorem claim_C5_count_idempotent (cfg : Config) (text : List Nat)
    (textlen num_tok : Nat) (m1 m2 : Mem) (n : Int)
    (hcount : parseRet (csvn_parse cfg text textlen csvn_init false m1 0) = some n)
    (hn : 0 ≤ n) (hcap : n.toNat ≤ num_tok) :
    parseRet (csvn_parse cfg text textlen csvn_init true m2 num_tok) = some n := by
  unfold parseRet at hcount ⊢
  rw [Option.map_eq_some'] at hcount
  obtain ⟨⟨code, q, mq⟩, hrun, hcode⟩ := hcount
  simp only at hcode
  rw [hcode] at hrun
  unfold csvn_parse at hrun ⊢
  obtain ⟨m2', hrun2⟩ :=
    parseLoop_sim cfg text textlen num_tok ((textlen - csvn_init.pos) + 1) 0 1 0 0 0
      m1 m2 n q mq hrun hn (by omega)
  simp only [csvn_init] at hrun2 ⊢
  rw [hrun2]
  rfl

/-- Witness for C5 on `a,b`: a counting pass returns 2, and a storing pass
with capacity 2 returns 2 as well. -/
theorem claim_C5_count_idempotent_witness :
    (parseRet (csvn_parse cfgDefault [97, 44, 98] 3 csvn_init false memInit 0) = some 2 ∧
      (0 : Int) ≤ 2 ∧ (2 : Int).toNat ≤ 2) ∧
    parseRet (csvn_parse cfgDefault [97, 44, 98] 3 csvn_init true memInit 2) = some 2 :=
  ⟨⟨by decide, by decide, by decide⟩,
    claim_C5_count_idempotent cfgDefault [97, 44, 98] 3 2 memInit memInit 2
      (by decide) (by decide) (by decide)⟩

/-- Running the quoted-field scan loop over a stretch of bytes that are
neither NUL nor quote, up to position `k` holding a lone quote, stops
exactly at `k` with `toknext` untouched and (when CSVN_CONSIDER_NL is off)
the attributed field line unchanged. -/
theorem quotesLoop_run (cfg : Config) (text : List Nat) (textlen k : Nat)
    (hcn : cfg.considerNl = false)
    (hq : byteAt text k = 34) (hq2 : byteAt text (k + 1) ≠ 34)
    (hklen : k < textlen) :
    ∀ (b fuel pp pt pl fl : Nat),
      k - pp ≤ b → pp ≤ k → textlen - pp < fuel →
      (∀ j, pp ≤ j → j < k → byteAt text j ≠ 0 ∧ byteAt text j ≠ 34) →
      ∃ ln, quotesLoop cfg text textlen fuel ⟨pp, pt, pl⟩ fl =
        some (⟨k, pt, ln⟩, fl) := by
  intro b
  induction b with
  | zero =>
    intro fuel pp pt pl fl hb hk hf hmid
    have hpk : pp = k := by omega
    subst hpk
    cases fuel with
    | zero => omega
    | succ f =>
      rw [quotesLoop]
      rw [if_pos (show byteAt text pp ≠ 0 ∧ pp < textlen from
        ⟨by rw [hq]; decide, hklen⟩)]
      rw [if_neg (show ¬ (byteAt text pp = 34 ∧ byteAt text (pp + 1) = 34) from
        fun hcon => hq2 hcon.2)]
      rw [if_pos (show byteAt text pp = 34 ∧ byteAt text (pp + 1) ≠ 34 from ⟨hq, hq2⟩)]
      exact ⟨pl, rfl⟩
  | succ b ih =>
    intro fuel pp pt pl fl hb hk hf hmid
    by_cases hpk : pp = k
    · subst hpk
      cases fuel with
      | zero => omega
      | succ f =>
        rw [quotesLoop]
        rw [if_pos (show byteAt text pp ≠ 0 ∧ pp < textlen from
          ⟨by rw [hq]; decide, hklen⟩)]
        rw [if_neg (show ¬ (byteAt text pp = 34 ∧ byteAt text (pp + 1) = 34) from
          fun hcon => hq2 hcon.2)]
        rw [if_pos (show byteAt text pp = 34 ∧ byteAt text (pp + 1) ≠ 34 from ⟨hq, hq2⟩)]
        exact ⟨pl, rfl⟩
    · have hlt : pp < k := by omega
      have hcur := hmid pp (Nat.le_refl pp) hlt
      cases fuel with
      | zero => omega
      | succ f =>
        rw [quotesLoop]
        rw [if_pos (show byteAt text pp ≠ 0 ∧ pp < textlen from ⟨hcur.1, by omega⟩)]
        rw [if_neg (show ¬ (byteAt text pp = 34 ∧ byteAt text (pp + 1) = 34) from
          fun hcon => hcur.2 hcon.1)]
        rw [if_neg (show ¬ (byteAt text pp = 34 ∧ byteAt text (pp + 1) ≠ 34) from
          fun hcon => hcur.2 hcon.1)]
        by_cases hnl : byteAt text pp = cfg.nl
        · rw [if_pos hnl]
          rw [if_neg (show ¬ cfg.considerNl = true by rw [hcn]; decide)]
          exact ih f (pp + 1) pt (pl + 1) fl (by omega) (by omega) (by omega)
            (fun j hj1 hj2 => hmid j (by omega) hj2)
        · rw [if_neg hnl]
          exact ih f (pp + 1) pt pl fl (by omega) (by omega) (by omega)
            (fun j hj1 hj2 => hmid j (by omega) hj2)

/-- Reading past a cons byte. -/
theorem byteAt_cons_succ (a : Nat) (l : List Nat) (j : Nat) :
    byteAt (a :: l) (j + 1) = byteAt l j := rfl

/-- Reading inside the left part of an append. -/
theorem byteAt_append_left {l l2 : List Nat} {j : Nat} (h : j < l.length) :
    byteAt (l ++ l2) j = byteAt l j :=
  List.getD_append _ _ _ _ h

/-- Reading inside the right part of an append. -/
theorem byteAt_append_right {l l2 : List Nat} {j : Nat} (h : l.length ≤ j) :
    byteAt (l ++ l2) j = byteAt l2 (j - l.length) :=
  List.getD_append_right _ _ _ _ h

/-- An in-bounds read returns an element of the list. -/
theorem byteAt_mem {l : List Nat} {j : Nat} (h : j < l.length) :
    byteAt l j ∈ l := by
  unfold byteAt
  rw [List.getD_eq_getElem _ _ h]
  exact List.getElem_mem h

/-- An out-of-bounds read returns 0. -/
theorem byteAt_past_end {l : List Nat} {j : Nat} (h : l.length ≤ j) :
    byteAt l j = 0 :=
  List.getD_eq_default _ _ h

/-- The quoted-field scanner, entered right after the opening quote of the
buffer `"s"c` with `s` free of NUL and quote bytes, stops at the closing
quote (position `|s| + 1`) with code 0 in counting mode. -/
theorem c6_after_quote (s : List Nat) (c : Nat)
    (hs0 : (0 : Nat) ∉ s) (hs34 : (34 : Nat) ∉ s) (hc34 : c ≠ 34) :
    ∃ ln, csvn_parse_quotes cfgStrict (34 :: s ++ [34, c]) (s.length + 3)
      ⟨1, 0, 1⟩ false memInit 0 = some (0, ⟨s.length + 1, 0, ln⟩, memInit) := by
  have hbq : byteAt (34 :: s ++ [34, c]) (s.length + 1) = 34 := by
    rw [show byteAt (34 :: s ++ [34, c]) (s.length + 1) =
        byteAt (s ++ [34, c]) s.length from rfl,
      byteAt_append_right (Nat.le_refl _), Nat.sub_self]
    rfl
  have hbc : byteAt (34 :: s ++ [34, c]) (s.length + 2) = c := by
    rw [show byteAt (34 :: s ++ [34, c]) (s.length + 2) =
        byteAt (s ++ [34, c]) (s.length + 1) from rfl,
      byteAt_append_right (by omega), show s.length + 1 - s.length = 1 from by omega]
    rfl
  have hmid : ∀ j, 1 ≤ j → j < s.length + 1 →
      byteAt (34 :: s ++ [34, c]) j ≠ 0 ∧ byteAt (34 :: s ++ [34, c]) j ≠ 34 := by
    intro j h1 h2
    have hij : j - 1 < s.length := by omega
    have hj : byteAt (34 :: s ++ [34, c]) j = byteAt s (j - 1) := by
      rw [show j = (j - 1) + 1 from by omega,
        show byteAt (34 :: s ++ [34, c]) ((j - 1) + 1) =
          byteAt (s ++ [34, c]) (j - 1) from rfl,
        byteAt_append_left hij]
      congr 1
    have hmem : byteAt s (j - 1) ∈ s := byteAt_mem hij
    constructor
    · rw [hj]; exact fun h0 => hs0 (h0 ▸ hmem)
    · rw [hj]; exact fun h0 => hs34 (h0 ▸ hmem)
  obtain ⟨ln, hql⟩ :=
    quotesLoop_run cfgStrict (34 :: s ++ [34, c]) (s.length + 3) (s.length + 1)
      (by decide) hbq (by rw [show s.length + 1 + 1 = s.length + 2 from rfl, hbc]; exact hc34)
      (by omega) s.length (s.length + 3 + 1) 1 0 1 1
      (by omega) (by omega) (by omega) hmid
  refine ⟨ln, ?_⟩
  simp only [csvn_parse_quotes, hql]
  rfl

/-- Same as `c6_after_quote` for the buffer `"s"` that ends right at the
closing quote. -/
theorem c6_after_quote_eoi (s : List Nat)
    (hs0 : (0 : Nat) ∉ s) (hs34 : (34 : Nat) ∉ s) :
    ∃ ln, csvn_parse_quotes cfgStrict (34 :: s ++ [34]) (s.length + 2)
      ⟨1, 0, 1⟩ false memInit 0 = some (0, ⟨s.length + 1, 0, ln⟩, memInit) := by
  have hlen : (34 :: s ++ [34]).length = s.length + 2 := by simp
  have hbq : byteAt (34 :: s ++ [34]) (s.length + 1) = 34 := by
    rw [show byteAt (34 :: s ++ [34]) (s.length + 1) =
        byteAt (s ++ [34]) s.length from rfl,
      byteAt_append_right (Nat.le_refl _), Nat.sub_self]
    rfl
  have hbe : byteAt (34 :: s ++ [34]) (s.length + 2) = 0 :=
    byteAt_past_end (by rw [hlen])
  have hmid : ∀ j, 1 ≤ j → j < s.length + 1 →
      byteAt (34 :: s ++ [34]) j ≠ 0 ∧ byteAt (34 :: s ++ [34]) j ≠ 34 := by
    intro j h1 h2
    have hij : j - 1 < s.length := by omega
    have hj : byteAt (34 :: s ++ [34]) j = byteAt s (j - 1) := by
      rw [show j = (j - 1) + 1 from by omega,
        show byteAt (34 :: s ++ [34]) ((j - 1) + 1) =
          byteAt (s ++ [34]) (j - 1) from rfl,
        byteAt_append_left hij]
      congr 1
    have hmem : byteAt s (j - 1) ∈ s := byteAt_mem hij
    constructor
    · rw [hj]; exact fun h0 => hs0 (h0 ▸ hmem)
    · rw [hj]; exact fun h0 => hs34 (h0 ▸ hmem)
  obtain ⟨ln, hql⟩ :=
    quotesLoop_run cfgStrict (34 :: s ++ [34]) (s.length + 2) (s.length + 1)
      (by decide) hbq (by rw [show s.length + 1 + 1 = s.length + 2 from rfl, hbe]; decide)
      (by omega) s.length (s.length + 2 + 1) 1 0 1 1
      (by omega) (by omega) (by omega) hmid
  refine ⟨ln, ?_⟩
  simp only [csvn_parse_quotes, hql]
  rfl

/-- C6: under CSVN_STRICT, after a quoted field `"s"` the next byte decides:
any byte other than the delimiter, the newline, or the terminator makes
`csvn_parse` return INVALID_CHARACTER; the delimiter or newline lets the
field be counted and the parse succeed (returning 1 for the single field),
and so does end of input. -/
theorem claim_C6_strict_quote_follower (s : List Nat) (c : Nat)
    (hs0 : (0 : Nat) ∉ s) (hs34 : (34 : Nat) ∉ s) (hc34 : c ≠ 34) (hc0 : c ≠ 0) :
    ((c ≠ 44 ∧ c ≠ 10) →
      parseRet (csvn_parse cfgStrict (34 :: s ++ [34, c]) (s.length + 3)
        csvn_init false memInit 0) = some INVALID_CHARACTER) ∧
    ((c = 44 ∨ c = 10) →
      parseRet (csvn_parse cfgStrict (34 :: s ++ [34, c]) (s.length + 3)
        csvn_init false memInit 0) = some 1) ∧
    parseRet (csvn_parse cfgStrict (34 :: s ++ [34]) (s.length + 2)
      csvn_init false memInit 0) = some 1 := by
  obtain ⟨ln, hpq⟩ := c6_after_quote s c hs0 hs34 hc34
  have hbc : byteAt (34 :: s ++ [34, c]) (s.length + 2) = c := by
    rw [show byteAt (34 :: s ++ [34, c]) (s.length + 2) =
        byteAt (s ++ [34, c]) (s.length + 1) from rfl,
      byteAt_append_right (by omega), show s.length + 1 - s.length = 1 from by omega]
    rfl
  have hlen1 : (34 :: s ++ [34, c]).length = s.length + 3 := by simp
  have hb0 : byteAt (34 :: s ++ [34, c]) 0 = 34 := rfl
  refine ⟨?_, ?_, ?_⟩
  · intro hcc
    have hstep1 : parseStep cfgStrict (34 :: s ++ [34, c]) (s.length + 3)
        ⟨0, 0, 1⟩ false memInit 0 0 =
        .done INVALID_CHARACTER ⟨s.length + 2, 0, ln⟩ memInit := by
      simp only [parseStep, Nat.zero_add]
      rw [if_neg (show ¬ byteAt (34 :: s ++ [34, c]) 0 = cfgStrict.nl from by
        rw [hb0]; decide)]
      rw [if_neg (show ¬ byteAt (34 :: s ++ [34, c]) 0 = cfgStrict.delim from by
        rw [hb0]; decide)]
      rw [if_pos hb0]
      simp only [hpq]
      rw [if_neg (by decide : ¬ ((0 : Int) ≠ 0))]
      rw [if_pos (show cfgStrict.strict = true from rfl)]
      rw [if_neg (show ¬ (byteAt (34 :: s ++ [34, c]) (s.length + 1 + 1) = cfgStrict.delim ∨
          byteAt (34 :: s ++ [34, c]) (s.length + 1 + 1) = cfgStrict.nl) from by
        rw [show s.length + 1 + 1 = s.length + 2 from rfl, hbc]
        rintro (h | h)
        · exact hcc.1 (h.trans (by rfl))
        · exact hcc.2 (h.trans (by rfl)))]
      rw [if_pos (show byteAt (34 :: s ++ [34, c]) (s.length + 1 + 1) ≠ 0 ∧
          s.length + 1 + 1 < s.length + 3 from
        ⟨by rw [show s.length + 1 + 1 = s.length + 2 from rfl, hbc]; exact hc0, by omega⟩)]
    have hrun : csvn_parse cfgStrict (34 :: s ++ [34, c]) (s.length + 3)
        csvn_init false memInit 0 =
        some (INVALID_CHARACTER, ⟨s.length + 2, 0, ln⟩, memInit) := by
      unfold csvn_parse
      simp only [csvn_init, Nat.sub_zero]
      rw [parseLoop]
      rw [if_pos (show byteAt (34 :: s ++ [34, c]) (⟨0, 0, 1⟩ : csv_p).pos ≠ 0 ∧
          (⟨0, 0, 1⟩ : csv_p).pos < s.length + 3 from
        ⟨show (34 : Nat) ≠ 0 by decide, show (0 : Nat) < s.length + 3 by omega⟩)]
      rw [hstep1]
    rw [hrun]
    rfl
  · intro hsep
    have hstep1 : parseStep cfgStrict (34 :: s ++ [34, c]) (s.length + 3)
        ⟨0, 0, 1⟩ false memInit 0 0 = .cont ⟨s.length + 2, 0, ln⟩ memInit 1 := by
      simp only [parseStep, Nat.zero_add]
      rw [if_neg (show ¬ byteAt (34 :: s ++ [34, c]) 0 = cfgStrict.nl from by
        rw [hb0]; decide)]
      rw [if_neg (show ¬ byteAt (34 :: s ++ [34, c]) 0 = cfgStrict.delim from by
        rw [hb0]; decide)]
      rw [if_pos hb0]
      simp only [hpq]
      rw [if_neg (by decide : ¬ ((0 : Int) ≠ 0))]
      rw [if_pos (show cfgStrict.strict = true from rfl)]
      rw [if_pos (show byteAt (34 :: s ++ [34, c]) (s.length + 1 + 1) = cfgStrict.delim ∨
          byteAt (34 :: s ++ [34, c]) (s.length + 1 + 1) = cfgStrict.nl from by
        rw [show s.length + 1 + 1 = s.length + 2 from rfl, hbc]
        rcases hsep with h | h
        · exact Or.inl (h.trans (by rfl))
        · exact Or.inr (h.trans (by rfl)))]
    rcases hsep with hc44 | hc10
    · have hb2 : byteAt (34 :: s ++ [34, c]) (s.length + 2) = 44 := by
        rw [hbc]; exact hc44
      have hb3 : byteAt (34 :: s ++ [34, c]) (s.length + 3) = 0 :=
        byteAt_past_end (by rw [hlen1])
      have hstep2 : parseStep cfgStrict (34 :: s ++ [34, c]) (s.length + 3)
          ⟨s.length + 2, 0, ln⟩ false memInit 0 1 =
          .cont ⟨s.length + 3, 0, ln⟩ memInit 1 := by
        simp only [parseStep]
        rw [if_neg (show ¬ byteAt (34 :: s ++ [34, c]) (s.length + 2) = cfgStrict.nl from by
          rw [hb2]; decide)]
        rw [if_pos (show byteAt (34 :: s ++ [34, c]) (s.length + 2) = cfgStrict.delim from by
          rw [hb2]; rfl)]
        rw [if_neg (show ¬ cfgStrict.skipWhitespace = true from by decide)]
        simp only []
        rw [if_neg (show ¬ byteAt (34 :: s ++ [34, c]) (s.length + 2 + 1) = cfgStrict.delim from by
          rw [show s.length + 2 + 1 = s.length + 3 from rfl, hb3]; decide)]
      have hrun : csvn_parse cfgStrict (34 :: s ++ [34, c]) (s.length + 3)
          csvn_init false memInit 0 = some (1, ⟨s.length + 3, 0, ln⟩, memInit) := by
        unfold csvn_parse
        simp only [csvn_init]
        rw [show s.length + 3 - 0 + 1 = s.length + 1 + 1 + 1 + 1 from by omega]
        rw [parseLoop]
        rw [if_pos (show byteAt (34 :: s ++ [34, c]) (⟨0, 0, 1⟩ : csv_p).pos ≠ 0 ∧
            (⟨0, 0, 1⟩ : csv_p).pos < s.length + 3 from
          ⟨show (34 : Nat) ≠ 0 by decide, show (0 : Nat) < s.length + 3 by omega⟩)]
        simp only [hstep1]
        rw [parseLoop]
        rw [if_pos (show byteAt (34 :: s ++ [34, c])
              (⟨s.length + 2, 0, ln⟩ : csv_p).pos ≠ 0 ∧
            (⟨s.length + 2, 0, ln⟩ : csv_p).pos < s.length + 3 from
          ⟨show byteAt (34 :: s ++ [34, c]) (s.length + 2) ≠ 0 by rw [hb2]; decide,
           show s.length + 2 < s.length + 3 by omega⟩)]
        simp only [hstep2]
        rw [parseLoop]
        rw [if_neg (show ¬ (byteAt (34 :: s ++ [34, c])
              (⟨s.length + 3, 0, ln⟩ : csv_p).pos ≠ 0 ∧
            (⟨s.length + 3, 0, ln⟩ : csv_p).pos < s.length + 3) from
          fun hcon => hcon.1 (show byteAt (34 :: s ++ [34, c]) (s.length + 3) = 0 from hb3))]
        rfl
      rw [hrun]
      rfl
    · have hb2 : byteAt (34 :: s ++ [34, c]) (s.length + 2) = 10 := by
        rw [hbc]; exact hc10
      have hb3 : byteAt (34 :: s ++ [34, c]) (s.length + 3) = 0 :=
        byteAt_past_end (by rw [hlen1])
      have hstep2 : parseStep cfgStrict (34 :: s ++ [34, c]) (s.length + 3)
          ⟨s.length + 2, 0, ln⟩ false memInit 0 1 =
          .cont ⟨s.length + 3, 0, ln + 1⟩ memInit 1 := by
        simp only [parseStep]
        rw [if_pos (show byteAt (34 :: s ++ [34, c]) (s.length + 2) = cfgStrict.nl from by
          rw [hb2]; rfl)]
      have hrun : csvn_parse cfgStrict (34 :: s ++ [34, c]) (s.length + 3)
          csvn_init false memInit 0 = some (1, ⟨s.length + 3, 0, ln + 1⟩, memInit) := by
        unfold csvn_parse
        simp only [csvn_init]
        rw [show s.length + 3 - 0 + 1 = s.length + 1 + 1 + 1 + 1 from by omega]
        rw [parseLoop]
        rw [if_pos (show byteAt (34 :: s ++ [34, c]) (⟨0, 0, 1⟩ : csv_p).pos ≠ 0 ∧
            (⟨0, 0, 1⟩ : csv_p).pos < s.length + 3 from
          ⟨show (34 : Nat) ≠ 0 by decide, show (0 : Nat) < s.length + 3 by omega⟩)]
        simp only [hstep1]
        rw [parseLoop]
        rw [if_pos (show byteAt (34 :: s ++ [34, c])
              (⟨s.length + 2, 0, ln⟩ : csv_p).pos ≠ 0 ∧
            (⟨s.length + 2, 0, ln⟩ : csv_p).pos < s.length + 3 from
          ⟨show byteAt (34 :: s ++ [34, c]) (s.length + 2) ≠ 0 by rw [hb2]; decide,
           show s.length + 2 < s.length + 3 by omega⟩)]
        simp only [hstep2]
        rw [parseLoop]
        rw [if_neg (show ¬ (byteAt (34 :: s ++ [34, c])
              (⟨s.length + 3, 0, ln + 1⟩ : csv_p).pos ≠ 0 ∧
            (⟨s.length + 3, 0, ln + 1⟩ : csv_p).pos < s.length + 3) from
          fun hcon => hcon.1 (show byteAt (34 :: s ++ [34, c]) (s.length + 3) = 0 from hb3))]
        rfl
      rw [hrun]
      rfl
  · obtain ⟨ln2, hpq2⟩ := c6_after_quote_eoi s hs0 hs34
    have hb0e : byteAt (34 :: s ++ [34]) 0 = 34 := rfl
    have hlen2 : (34 :: s ++ [34]).length = s.length + 2 := by simp
    have hb2e : byteAt (34 :: s ++ [34]) (s.length + 2) = 0 :=
      byteAt_past_end (by rw [hlen2])
    have hstep1 : parseStep cfgStrict (34 :: s ++ [34]) (s.length + 2)
        ⟨0, 0, 1⟩ false memInit 0 0 = .cont ⟨s.length + 2, 0, ln2⟩ memInit 1 := by
      simp only [parseStep, Nat.zero_add]
      rw [if_neg (show ¬ byteAt (34 :: s ++ [34]) 0 = cfgStrict.nl from by
        rw [hb0e]; decide)]
      rw [if_neg (show ¬ byteAt (34 :: s ++ [34]) 0 = cfgStrict.delim from by
        rw [hb0e]; decide)]
      rw [if_pos hb0e]
      simp only [hpq2]
      rw [if_neg (by decide : ¬ ((0 : Int) ≠ 0))]
      rw [if_pos (show cfgStrict.strict = true from rfl)]
      rw [if_neg (show ¬ (byteAt (34 :: s ++ [34]) (s.length + 1 + 1) = cfgStrict.delim ∨
          byteAt (34 :: s ++ [34]) (s.length + 1 + 1) = cfgStrict.nl) from by
        rw [show s.length + 1 + 1 = s.length + 2 from rfl, hb2e]; decide)]
      rw [if_neg (show ¬ (byteAt (34 :: s ++ [34]) (s.length + 1 + 1) ≠ 0 ∧
          s.length + 1 + 1 < s.length + 2) from
        fun hcon => hcon.1 (show byteAt (34 :: s ++ [34]) (s.length + 1 + 1) = 0 from hb2e))]
    have hrun : csvn_parse cfgStrict (34 :: s ++ [34]) (s.length + 2)
        csvn_init false memInit 0 = some (1, ⟨s.length + 2, 0, ln2⟩, memInit) := by
      unfold csvn_parse
      simp only [csvn_init]
      rw [show s.length + 2 - 0 + 1 = s.length + 1 + 1 + 1 from by omega]
      rw [parseLoop]
      rw [if_pos (show byteAt (34 :: s ++ [34]) (⟨0, 0, 1⟩ : csv_p).pos ≠ 0 ∧
          (⟨0, 0, 1⟩ : csv_p).pos < s.length + 2 from
        ⟨show (34 : Nat) ≠ 0 by decide, show (0 : Nat) < s.length + 2 by omega⟩)]
      simp only [hstep1]
      rw [parseLoop]
      rw [if_neg (show ¬ (byteAt (34 :: s ++ [34])
            (⟨s.length + 2, 0, ln2⟩ : csv_p).pos ≠ 0 ∧
          (⟨s.length + 2, 0, ln2⟩ : csv_p).pos < s.length + 2) from
        fun hcon => hcon.1 (show byteAt (34 :: s ++ [34]) (s.length + 2) = 0 from hb2e))]
      rfl
    rw [hrun]
    rfl

/-- Witness for C6 on the concrete inputs `"a"b`, `"a",` and `"a"`. -/
theorem claim_C6_strict_quote_follower_witness :
    parseRet (csvn_parse cfgStrict (34 :: [97] ++ [34, 98]) ([97].length + 3)
      csvn_init false memInit 0) = some INVALID_CHARACTER ∧
    parseRet (csvn_parse cfgStrict (34 :: [97] ++ [34, 44]) ([97].length + 3)
      csvn_init false memInit 0) = some 1 ∧
    parseRet (csvn_parse cfgStrict (34 :: [97] ++ [34]) ([97].length + 2)
      csvn_init false memInit 0) = some 1 :=
  ⟨(claim_C6_strict_quote_follower [97] 98 (by decide) (by decide) (by decide)
      (by decide)).1 ⟨by decide, by decide⟩,
    (claim_C6_strict_quote_follower [97] 44 (by decide) (by decide) (by decide)
      (by decide)).2.1 (Or.inl rfl),
    (claim_C6_strict_quote_follower [97] 98 (by decide) (by decide) (by decide)
      (by decide)).2.2⟩
